import Mathlib

/-!
Shallow embedding of the golfscript-rs interpreter core.

Values, coercion, sequence utilities, the tokenizer and the evaluator are
translated from the Rust sources (src/value.rs, src/coerce.rs, src/util.rs,
src/parse.rs, src/unescape.rs, src/main.rs).  Bytes are modelled as `Nat`
(reduced mod 256 exactly where the Rust code reduces), arbitrary-precision
integers (`BigInt`) as `Int`, and `usize` conversions (`to_usize`) as a
range check against 2 to the 64.  Execution is modelled in a state monad
over the evaluator state (stack, variables, bracket marks, PRNG state and
an output log), with an explicit fuel argument standing in for unbounded
recursion: running out of fuel yields the distinguished `Err.timeout`
outcome, while a Rust panic (stack underflow, type error, division by
zero, slice out of range) yields `Err.fatal`.
-/

/-- Error outcomes of the embedded interpreter: `fatal` models a Rust
panic (process abort), `timeout` models exceeding the fuel bound that
stands in for the unbounded recursion of the real interpreter. -/
inductive Err where
  | fatal : Err
  | timeout : Err
  deriving DecidableEq

/-- Model of `num::ToPrimitive::to_usize` on a `BigInt`: defined exactly
when the value fits a 64-bit unsigned machine word. -/
def toUsize (i : Int) : Option Nat :=
  if 0 ≤ i ∧ i < 2 ^ 64 then some i.toNat else none

/-- Comparison of two naturals as an `Ordering` (Rust `usize::cmp`). -/
def natCmp (a b : Nat) : Ordering :=
  if a < b then .lt else if a = b then .eq else .gt

/-- Comparison of two integers as an `Ordering` (Rust `BigInt::cmp`). -/
def intCmp (a b : Int) : Ordering :=
  if a < b then .lt else if a = b then .eq else .gt

/-- Lexicographic comparison of byte vectors (Rust `Vec<u8>::cmp`). -/
def natListCmp : List Nat → List Nat → Ordering
  | [], [] => .eq
  | [], _ :: _ => .lt
  | _ :: _, [] => .gt
  | a :: as_, b :: bs =>
    match natCmp a b with
    | .eq => natListCmp as_ bs
    | o => o

/-- The tagged value type `Gval` of src/value.rs: arbitrary-precision
integers, arrays of values, byte strings, and code blocks (unparsed
source bytes). -/
inductive Gval where
  | int : Int → Gval
  | arr : List Gval → Gval
  | str : List Nat → Gval
  | blk : List Nat → Gval

mutual

/-- Structural equality test on values (Rust derived `PartialEq`). -/
def gbeq : Gval → Gval → Bool
  | .int a, .int b => a == b
  | .arr a, .arr b => gbeqList a b
  | .str a, .str b => a == b
  | .blk a, .blk b => a == b
  | _, _ => false

/-- Structural equality test on value lists. -/
def gbeqList : List Gval → List Gval → Bool
  | [], [] => true
  | a :: as_, b :: bs => gbeq a b && gbeqList as_ bs
  | _, _ => false

end

mutual

theorem gbeq_iff : ∀ a b : Gval, gbeq a b = true ↔ a = b
  | .int _, .int _ => by simp [gbeq]
  | .int _, .arr _ => by simp [gbeq]
  | .int _, .str _ => by simp [gbeq]
  | .int _, .blk _ => by simp [gbeq]
  | .arr _, .int _ => by simp [gbeq]
  | .arr a, .arr b => by rw [gbeq, gbeqList_iff a b]; simp
  | .arr _, .str _ => by simp [gbeq]
  | .arr _, .blk _ => by simp [gbeq]
  | .str _, .int _ => by simp [gbeq]
  | .str _, .arr _ => by simp [gbeq]
  | .str _, .str _ => by simp [gbeq]
  | .str _, .blk _ => by simp [gbeq]
  | .blk _, .int _ => by simp [gbeq]
  | .blk _, .arr _ => by simp [gbeq]
  | .blk _, .str _ => by simp [gbeq]
  | .blk _, .blk _ => by simp [gbeq]

theorem gbeqList_iff : ∀ a b : List Gval, gbeqList a b = true ↔ a = b
  | [], [] => by simp [gbeqList]
  | [], _ :: _ => by simp [gbeqList]
  | _ :: _, [] => by simp [gbeqList]
  | a :: as_, b :: bs => by
    rw [gbeqList, Bool.and_eq_true, gbeq_iff a b, gbeqList_iff as_ bs]
    simp

end

instance : DecidableEq Gval := fun a b =>
  decidable_of_iff (gbeq a b = true) (gbeq_iff a b)

/-- Rank of a value's constructor, giving the cross-kind order of the Rust
derived `Ord` (declaration order: Int, Arr, Str, Blk). -/
def kindRank : Gval → Nat
  | .int _ => 0
  | .arr _ => 1
  | .str _ => 2
  | .blk _ => 3

mutual

/-- Total order on values (Rust derived `Ord` on `Gval`): same-kind
payloads compare componentwise, different kinds by declaration order. -/
def gcmp : Gval → Gval → Ordering
  | .int a, .int b => intCmp a b
  | .arr a, .arr b => gcmpList a b
  | .str a, .str b => natListCmp a b
  | .blk a, .blk b => natListCmp a b
  | x, y => natCmp (kindRank x) (kindRank y)

/-- Lexicographic order on value lists (Rust `Vec<Gval>::cmp`). -/
def gcmpList : List Gval → List Gval → Ordering
  | [], [] => .eq
  | [], _ :: _ => .lt
  | _ :: _, [] => .gt
  | a :: as_, b :: bs =>
    match gcmp a b with
    | .eq => gcmpList as_ bs
    | o => o

end

/-- Gval::bool of src/value.rs: 1 for true, 0 for false. -/
def gbool (b : Bool) : Gval := .int (if b then 1 else 0)

/-- Gval::falsey of src/value.rs: zero and the three empty sequences are
falsey. -/
def Gval.falsey : Gval → Bool
  | .int a => a == 0
  | .arr vs => vs.isEmpty
  | .str bs => bs.isEmpty
  | .blk bs => bs.isEmpty

/-- Gval::truthy of src/value.rs. -/
def Gval.truthy (v : Gval) : Bool := !v.falsey

/-- to_byte of src/util.rs: reduce an integer to a byte by flooring
modulo 256. -/
def toByte (n : Int) : Nat := (n.fmod 256).toNat

/-- Decimal digits (reversed accumulation) of a natural number, with fuel;
helper for the base-10 rendering used by `BigInt::to_str_radix(10)`. -/
def natDecGo : Nat → Nat → List Nat
  | 0, _ => []
  | f + 1, n => if n = 0 then [] else natDecGo f (n / 10) ++ [48 + n % 10]

/-- Decimal ASCII bytes of a natural number. -/
def natDec (n : Nat) : List Nat := if n = 0 then [48] else natDecGo (n + 1) n

/-- Decimal ASCII bytes of an integer, `BigInt::to_str_radix(10)` of the
Rust sources (a leading minus sign for negative values). -/
def decimal (i : Int) : List Nat :=
  if i < 0 then 45 :: natDec i.natAbs else natDec i.natAbs

mutual

/-- Gval::to_gs of src/value.rs: Int renders in decimal, Arr concatenates
the renderings of its members, Str is its bytes, Blk is its bytes wrapped
in braces (bytes 123 and 125). -/
def toGs : Gval → List Nat
  | .int a => decimal a
  | .arr vs => toGsList vs
  | .str bs => bs
  | .blk bs => 123 :: bs ++ [125]

/-- Concatenated to_gs renderings of a value list. -/
def toGsList : List Gval → List Nat
  | [] => []
  | v :: vs => toGs v ++ toGsList vs

end

mutual

/-- flatten_append of src/coerce.rs, as a function of the appended value:
an Int contributes its value mod 256 as one byte, an Arr recurses, and
Str and Blk contribute their bytes. -/
def flattenV : Gval → List Nat
  | .int a => [toByte a]
  | .arr vs => flattenL vs
  | .str bs => bs
  | .blk bs => bs

/-- flatten of src/coerce.rs on a value list. -/
def flattenL : List Gval → List Nat
  | [] => []
  | v :: vs => flattenV v ++ flattenL vs

end

/-- Tail of show_words: each further element preceded by one space. -/
def showWordsTail : List Gval → List Nat
  | [] => []
  | v :: vs => 32 :: (toGs v ++ showWordsTail vs)

/-- show_words of src/coerce.rs: element-wise to_gs joined by single
spaces. -/
def showWords : List Gval → List Nat
  | [] => []
  | v :: vs => toGs v ++ showWordsTail vs

/-- Lowercase hexadecimal digit byte for a value below 16. -/
def hexDigit (n : Nat) : Nat := if n < 10 then 48 + n else 87 + n

/-- std::ascii::escape_default on one byte: C-style escapes for tab,
carriage return, newline, backslash and both quote characters, printable
ASCII unchanged, and a lowercase two-digit hex escape otherwise. -/
def escapeDefault (b : Nat) : List Nat :=
  if b = 9 then [92, 116]
  else if b = 13 then [92, 114]
  else if b = 10 then [92, 110]
  else if b = 92 then [92, 92]
  else if b = 39 then [92, 39]
  else if b = 34 then [92, 34]
  else if 32 ≤ b ∧ b ≤ 126 then [b]
  else [92, 120, hexDigit (b / 16), hexDigit (b % 16)]

/-- Escaping of one string byte in Gval::inspect: a single-quote byte is
passed through literally, anything else goes through escape_default. -/
def inspectByte (b : Nat) : List Nat :=
  if b = 39 then [39] else escapeDefault b

mutual

/-- Gval::inspect of src/value.rs: arrays bracketed with space-separated
inspected elements, strings double-quoted with escaped bytes, Int and Blk
fall back to to_gs. -/
def inspectV : Gval → List Nat
  | .arr vs => 91 :: (inspectL vs ++ [93])
  | .str bs => 34 :: (bs.flatMap inspectByte ++ [34])
  | .int a => toGs (.int a)
  | .blk bs => toGs (.blk bs)

/-- Space-separated inspect renderings of the elements of an array. -/
def inspectL : List Gval → List Nat
  | [] => []
  | v :: vs => inspectV v ++ inspectLTail vs

/-- Tail elements of an array inspect, each preceded by one space. -/
def inspectLTail : List Gval → List Nat
  | [] => []
  | v :: vs => 32 :: (inspectV v ++ inspectLTail vs)

end

/-- The coercion result type `Coerced` of src/coerce.rs: a homogeneous
pair of integers, arrays, strings, or blocks. -/
inductive Coerced where
  | ints : Int → Int → Coerced
  | arrs : List Gval → List Gval → Coerced
  | strs : List Nat → List Nat → Coerced
  | blks : List Nat → List Nat → Coerced

/-- coerce of src/coerce.rs: the four-way type promotion table. -/
def coerce : Gval → Gval → Coerced
  | .int a, .int b => .ints a b
  | .arr a, .arr b => .arrs a b
  | .str a, .str b => .strs a b
  | .blk a, .blk b => .blks a b
  | .str a, .blk b => .blks a b
  | .blk a, .str b => .blks a b
  | .int a, .arr b => .arrs [.int a] b
  | .arr a, .int b => .arrs a [.int b]
  | .int a, .str b => .strs (decimal a) b
  | .str a, .int b => .strs a (decimal b)
  | .int a, .blk b => .blks (decimal a) b
  | .blk a, .int b => .blks a (decimal b)
  | .arr a, .str b => .strs (flattenL a) b
  | .str a, .arr b => .strs a (flattenL b)
  | .arr a, .blk b => .blks (showWords a) b
  | .blk a, .arr b => .blks a (showWords b)

/-- Coerced::left of src/coerce.rs: the left component re-tagged. -/
def Coerced.left : Coerced → Gval
  | .ints a _ => .int a
  | .arrs a _ => .arr a
  | .strs a _ => .str a
  | .blks a _ => .blk a

/-- Gval::plus of src/value.rs: coerce, then add integers, concatenate
arrays and strings, and concatenate blocks with a single space between. -/
def plusV (a b : Gval) : Gval :=
  match coerce a b with
  | .ints x y => .int (x + y)
  | .arrs x y => .arr (x ++ y)
  | .strs x y => .str (x ++ y)
  | .blks x y => .blk (x ++ [32] ++ y)

/-- join of src/value.rs: an empty list gives an empty Arr for an Arr
separator and an empty Str otherwise; otherwise the first element is
coerced against the separator and the rest are folded in with plus. -/
def joinV (a : List Gval) (sep : Gval) : Gval :=
  match a with
  | [] =>
    match sep with
    | .arr _ => .arr []
    | _ => .str []
  | r :: rest => rest.foldl (fun acc i => plusV (plusV acc sep) i) (coerce r sep).left

/-- Gval::factory of src/value.rs: the empty value of the same kind. -/
def factory : Gval → Gval
  | .int _ => .int 0
  | .arr _ => .arr []
  | .str _ => .str []
  | .blk _ => .blk []

/-- Gval::push of src/value.rs: push onto an Arr, flatten-append onto a
Str or Blk, and panic on an Int. -/
def gpushVal : Gval → Gval → Except Err Gval
  | .int _, _ => .error .fatal
  | .arr vs, other => .ok (.arr (vs ++ [other]))
  | .str vs, other => .ok (.str (vs ++ flattenV other))
  | .blk vs, other => .ok (.blk (vs ++ flattenV other))

/-- Gval::unwrap_int of src/value.rs: the integer payload, panicking on
any other kind. -/
def unwrapInt : Gval → Except Err Int
  | .int n => .ok n
  | _ => .error .fatal

/-- Modelled from the spec: the `into_arr` method called by `zip` and
`base` in src/main.rs is not among the sources; per the spec (`zip` pops
an Arr of sequences, `base` reads an Arr of digits) and the sibling
`as_arr` of src/value.rs it panics on an Int, is the identity on an Arr,
and lifts the bytes of a Str or Blk to integer values. -/
def intoArr : Gval → Except Err (List Gval)
  | .int _ => .error .fatal
  | .arr a => .ok a
  | .str a => .ok (a.map .int)
  | .blk a => .ok (a.map .int)

/-- repeat of src/util.rs, iteration count as a natural: concatenate that
many copies of the list. -/
def repeatGo (a : List α) : Nat → List α
  | 0 => []
  | k + 1 => a ++ repeatGo a k

/-- repeat of src/util.rs: extend while the count is positive, so a
non-positive count yields the empty list. -/
def repeatV (a : List α) (n : Int) : List α := repeatGo a n.toNat

/-- Loop body of split of src/util.rs, with fuel: scan the remainder; on
an exact separator match emit the current piece (dropped when `clean` and
empty) and restart it past the separator, otherwise move one element into
the current piece; at the end emit the final piece.  An empty separator
makes the Rust loop spin forever; here the fuel runs out (`none`). -/
def splitGo [DecidableEq α] (sep : List α) (clean : Bool) : Nat → List α → List α → Option (List (List α))
  | 0, _, _ => none
  | f + 1, rem, cur =>
    match rem with
    | [] => some (if clean ∧ cur = [] then [] else [cur])
    | x :: xs =>
      if sep.isPrefixOf rem then
        match splitGo sep clean f (rem.drop sep.length) [] with
        | none => none
        | some ps => some ((if clean ∧ cur = [] then [] else [cur]) ++ ps)
      else splitGo sep clean f xs (cur ++ [x])

/-- split of src/util.rs, run with enough fuel for any non-empty
separator. -/
def split [DecidableEq α] (a sep : List α) (clean : Bool) : Option (List (List α)) :=
  splitGo sep clean (a.length + 1) a []

/-- Iterator::step_by with step `m` (indices 0, m, 2m, ...), with fuel. -/
def stepByGo (m : Nat) : Nat → List α → List α
  | 0, _ => []
  | _ + 1, [] => []
  | f + 1, x :: xs => x :: stepByGo m f (xs.drop (m - 1))

/-- every_nth of src/util.rs: step through every |n|-th element, over the
reversed list for negative n; a zero step or a step beyond the machine
word range panics (`step_by(0)` aborts, `to_usize().unwrap()` fails). -/
def everyNth (a : List α) (n : Int) : Except Err (List α) :=
  match toUsize n.natAbs with
  | none => .error .fatal
  | some m =>
    if m = 0 then .error .fatal
    else if n < 0 then .ok (stepByGo m (a.length + 1) a.reverse)
    else .ok (stepByGo m (a.length + 1) a)

/-- slice::chunks with chunk size `m`, with fuel. -/
def chunksGo (m : Nat) : Nat → List α → List (List α)
  | 0, _ => []
  | _ + 1, [] => []
  | f + 1, l => l.take m :: chunksGo m f (l.drop m)

/-- chunk of src/util.rs: an empty input gives no chunks (before the zero
test), a zero count panics, a negative count reverses the list first, and
a count beyond the machine word range fails `to_usize().unwrap()`. -/
def chunk (a : List α) (n : Int) : Except Err (List (List α)) :=
  if a.length = 0 then .ok []
  else if n = 0 then .error .fatal
  else
    match toUsize n.natAbs with
    | none => .error .fatal
    | some m => .ok (chunksGo m (a.length + 1) (if n < 0 then a.reverse else a))

/-- set_subtract of src/util.rs: keep the elements of `a` not contained
in `b`, preserving order. -/
def setSubtract [DecidableEq α] (a b : List α) : List α :=
  a.filter (fun x => !b.contains x)

/-- Order-preserving deduplication pass shared by the set operations:
keep an element iff not already seen. -/
def dedupGo [DecidableEq α] : List α → List α → List α
  | _, [] => []
  | seen, v :: vs =>
    if seen.contains v then dedupGo seen vs else v :: dedupGo (seen ++ [v]) vs

/-- set_or of src/util.rs: first-occurrence-order union of the two
lists. -/
def setOr [DecidableEq α] (a b : List α) : List α := dedupGo [] (a ++ b)

/-- Scan of set_and of src/util.rs over `b`: keep a fresh element iff it
occurs in `a`, recording it as seen only in that case (mirroring the
short-circuited `insert`). -/
def setAndGo [DecidableEq α] (a : List α) : List α → List α → List α
  | _, [] => []
  | seen, v :: vs =>
    if a.contains v ∧ ¬seen.contains v then v :: setAndGo a (seen ++ [v]) vs
    else setAndGo a seen vs

/-- set_and of src/util.rs: first-occurrence-order intersection. -/
def setAnd [DecidableEq α] (a b : List α) : List α := setAndGo a [] b

/-- Scan of set_xor of src/util.rs over `a ++ b`: keep a fresh element
iff it occurs in exactly one of the two lists. -/
def setXorGo [DecidableEq α] (a b : List α) : List α → List α → List α
  | _, [] => []
  | seen, v :: vs =>
    if ¬seen.contains v ∧ (a.contains v ≠ b.contains v) then
      v :: setXorGo a b (seen ++ [v]) vs
    else setXorGo a b seen vs

/-- set_xor of src/util.rs: first-occurrence-order symmetric
difference. -/
def setXor [DecidableEq α] (a b : List α) : List α := setXorGo a b [] (a ++ b)

/-- index of src/util.rs: in-range non-negative indices read directly,
negative indices wrap by adding the length, everything else is `none`. -/
def index (a : List α) (i : Int) : Option α :=
  if (a.length : Int) ≤ i then none
  else if 0 ≤ i then a.get? i.toNat
  else if -(a.length : Int) ≤ i then a.get? (i + a.length).toNat
  else none

/-- slice of src/util.rs: clamp the index (negative wraps, out of range
clamps to an end), then take the part before it (`Less`) or from it
(`Greater`); the function is never called with `Equal` (the Rust code
panics there). -/
def sliceSeq (o : Ordering) (a : List α) (i : Int) : Except Err (List α) :=
  let ix : Nat :=
    if (a.length : Int) ≤ i then a.length
    else if 0 ≤ i then i.toNat
    else if -(a.length : Int) ≤ i then (i + a.length).toNat
    else 0
  match o with
  | .lt => .ok (a.take ix)
  | .gt => .ok (a.drop ix)
  | .eq => .error .fatal

/-- Scan of string_index of src/util.rs: the position of the first
occurrence of the needle as a contiguous subsequence. -/
def strIdxGo (needle : List Nat) : List Nat → Nat → Option Nat
  | hay, i =>
    if needle.isPrefixOf hay then some i
    else
      match hay with
      | [] => none
      | _ :: t => strIdxGo needle t (i + 1)

/-- string_index of src/util.rs: first substring occurrence, or -1. -/
def stringIndex (haystack needle : List Nat) : Int :=
  match strIdxGo needle haystack 0 with
  | some i => i
  | none => -1

/-- Escape translation for one double-quoted escape byte (src/unescape.rs). -/
def dqEsc (b : Nat) : Nat :=
  if b = 97 then 7
  else if b = 98 then 8
  else if b = 116 then 9
  else if b = 110 then 10
  else if b = 118 then 11
  else if b = 102 then 12
  else if b = 114 then 13
  else if b = 101 then 27
  else if b = 115 then 32
  else b

/-- Scan of unescape of src/unescape.rs over the bytes between the
quotes, with the escaping flag: single-quoted strings keep the backslash
except before a backslash or single quote, double-quoted strings map the
escape letters. -/
def unescapeGo (sq : Bool) : Bool → List Nat → List Nat
  | _, [] => []
  | true, c :: rest =>
    (if sq then (if c ≠ 92 ∧ c ≠ 39 then [92, c] else [c]) else [dqEsc c])
      ++ unescapeGo sq false rest
  | false, c :: rest =>
    if c = 92 then unescapeGo sq true rest else c :: unescapeGo sq false rest

/-- unescape of src/unescape.rs: process the lexeme bytes strictly between
the delimiting quotes. -/
def unescape (lexeme : List Nat) (sq : Bool) : List Nat :=
  unescapeGo sq false (lexeme.drop 1).dropLast

/-- The token type `Gtoken` of src/parse.rs.  A block token retains both
its tokenized interior and the interior source bytes. -/
inductive Gtoken where
  | symbol : List Nat → Gtoken
  | singleQuoted : List Nat → Gtoken
  | doubleQuoted : List Nat → Gtoken
  | intLiteral : List Nat → Gtoken
  | comment : List Nat → Gtoken
  | block : List Gtoken → List Nat → Gtoken

/-- Gtoken::lexeme of src/parse.rs: the source bytes of any token (the
interior bytes for a block). -/
def lexeme : Gtoken → List Nat
  | .symbol s => s
  | .singleQuoted s => s
  | .doubleQuoted s => s
  | .intLiteral s => s
  | .comment s => s
  | .block _ s => s

/-- ASCII alphabetic test (nom `is_alphabetic`). -/
def isAlphaB (b : Nat) : Bool := (65 ≤ b ∧ b ≤ 90) ∨ (97 ≤ b ∧ b ≤ 122)

/-- ASCII digit test (nom `is_digit`). -/
def isDigitB (b : Nat) : Bool := 48 ≤ b ∧ b ≤ 57

/-- parse_identifier of src/parse.rs: one alphabetic-or-underscore head
byte followed by alphanumeric-or-underscore tail bytes. -/
def parseIdentifier (i : List Nat) : Option (Gtoken × List Nat) :=
  match i with
  | c :: rest =>
    if isAlphaB c || c = 95 then
      let tail := rest.takeWhile (fun b => isAlphaB b || isDigitB b || b = 95)
      some (.symbol (c :: tail), rest.drop tail.length)
    else none
  | [] => none

/-- Body scan of parse_string of src/parse.rs past the opening delimiter:
a backslash always consumes the following byte, any other byte except the
delimiter is consumed, and the scan succeeds only on reaching a closing
delimiter, returning the remaining input. -/
def strBody (d : Nat) : Nat → List Nat → Option (List Nat)
  | 0, _ => none
  | _ + 1, [] => none
  | f + 1, c :: rest =>
    if c = d then some rest
    else if c = 92 then
      match rest with
      | [] => none
      | _ :: r2 => strBody d f r2
    else strBody d f rest

/-- parse_string of src/parse.rs for a given delimiter: the token lexeme
is everything consumed, including both delimiters. -/
def parseStringTok (d : Nat) (i : List Nat) : Option (List Nat × List Nat) :=
  match i with
  | c :: rest =>
    if c = d then
      match strBody d (rest.length + 1) rest with
      | some r => some (i.take (i.length - r.length), r)
      | none => none
    else none
  | [] => none

/-- parse_int_literal of src/parse.rs: an optional minus sign followed by
one or more digits. -/
def parseIntLiteral (i : List Nat) : Option (Gtoken × List Nat) :=
  let (neg, rest) :=
    match i with
    | 45 :: r => (true, r)
    | _ => (false, i)
  let digits := rest.takeWhile isDigitB
  if digits.isEmpty then none
  else some (.intLiteral ((if neg then [45] else []) ++ digits), rest.drop digits.length)

/-- parse_comment of src/parse.rs: a hash byte up to (not including) the
end of the line. -/
def parseComment (i : List Nat) : Option (Gtoken × List Nat) :=
  match i with
  | 35 :: rest =>
    let body := rest.takeWhile (fun b => b ≠ 13 ∧ b ≠ 10)
    some (.comment (35 :: body), rest.drop body.length)
  | _ => none

/-- parse_symbol of src/parse.rs: one byte that is none of the brace and
quote bytes. -/
def parseSymbol (i : List Nat) : Option (Gtoken × List Nat) :=
  match i with
  | c :: rest =>
    if c ≠ 123 ∧ c ≠ 125 ∧ c ≠ 34 ∧ c ≠ 39 then some (.symbol [c], rest) else none
  | [] => none

/-- parse_block of src/parse.rs, parameterized by the code parser for
the interior: an opening brace, a recursively tokenized interior (whose
consumed bytes form the lexeme), and a closing brace. -/
def parseBlockWith (pc : List Nat → Option (List Gtoken × List Nat))
    (i : List Nat) : Option (Gtoken × List Nat) :=
  match i with
  | 123 :: rest =>
    match pc rest with
    | some (ts, r2) =>
      match r2 with
      | 125 :: r3 => some (.block ts (rest.take (rest.length - r2.length)), r3)
      | _ => none
    | none => none
  | _ => none

/-- parse_token of src/parse.rs: the nom `alt` chain in source order,
parameterized by the code parser used for block interiors. -/
def parseTokenWith (pc : List Nat → Option (List Gtoken × List Nat))
    (i : List Nat) : Option (Gtoken × List Nat) :=
  (parseIdentifier i)
    <|> ((parseStringTok 39 i).map (fun p => (Gtoken.singleQuoted p.1, p.2)))
    <|> ((parseStringTok 34 i).map (fun p => (Gtoken.doubleQuoted p.1, p.2)))
    <|> (parseIntLiteral i)
    <|> (parseComment i)
    <|> (parseBlockWith pc i)
    <|> (parseSymbol i)

/-- parse_code of src/parse.rs (nom `many0(parse_token)`), with fuel for
the nested block recursion: tokens are taken until the first failure and
the remainder is returned; exhausted fuel yields `none`. -/
def parseCode : Nat → List Nat → Option (List Gtoken × List Nat)
  | 0, _ => none
  | f + 1, i =>
    match parseTokenWith (parseCode f) i with
    | none => some ([], i)
    | some (t, rest) =>
      match parseCode f rest with
      | none => none
      | some (ts, r) => some (t :: ts, r)

/-- The evaluator state of struct Gs in src/main.rs: the value stack
(bottom first, top at the end, like the Rust `Vec`), the variable map
(modelled as an association list with most recent binding first, matching
the `HashMap` lookup semantics), the array-bracket low-water marks, the
64-bit PRNG state, and a log of the bytes written to standard output. -/
structure GsState where
  stack : List Gval
  vars : List (List Nat × Gval)
  lb : List Nat
  rng : Nat
  out : List Nat
  deriving DecidableEq

/-- Lookup in the variable map: the most recent binding of a name. -/
def lookupVar : List (List Nat × Gval) → List Nat → Option Gval
  | [], _ => none
  | (k, v) :: rest, key => if k = key then some v else lookupVar rest key

/-- The evaluator computation type: a state transformer over `GsState`
that can abort with a fatal error or run out of fuel. -/
def GsM (α : Type) : Type := GsState → Except Err (α × GsState)

/-- Sequencing of evaluator computations. -/
def GsM.bind (x : GsM α) (g : α → GsM β) : GsM β := fun s =>
  match x s with
  | .error e => .error e
  | .ok (a, s2) => g a s2

/-- Pure evaluator computation. -/
def GsM.pure (a : α) : GsM α := fun s => .ok (a, s)

instance : Monad GsM where
  pure := GsM.pure
  bind := GsM.bind

/-- Abort modelling a Rust panic. -/
def fatalE : GsM α := fun _ => .error .fatal

/-- Abort modelling fuel exhaustion (divergence of the Rust loop). -/
def timeoutE : GsM α := fun _ => .error .timeout

/-- Read the whole evaluator state. -/
def getS : GsM GsState := fun s => .ok (s, s)

/-- Replace the whole evaluator state. -/
def setS (s2 : GsState) : GsM Unit := fun _ => .ok ((), s2)

/-- Lift a fallible pure computation into the evaluator monad. -/
def liftE (e : Except Err α) : GsM α := fun s =>
  match e with
  | .ok a => .ok (a, s)
  | .error err => .error err

/-- Gs::push of src/main.rs: append a value at the top of the stack. -/
def pushM (v : Gval) : GsM Unit := fun s =>
  .ok ((), { s with stack := s.stack ++ [v] })

/-- Extend the stack with several values (`self.stack.extend(vs)`). -/
def extendM (vs : List Gval) : GsM Unit := fun s =>
  .ok ((), { s with stack := s.stack ++ vs })

/-- Mark-walk of Gs::pop of src/main.rs on the reversed (top-first) mark
list: from the top downward, every mark at least the current stack length
is decremented (already floored at 0 by natural subtraction), and the walk
stops at the first smaller mark. -/
def adjustRev (len : Nat) : List Nat → List Nat
  | [] => []
  | m :: rest => if len ≤ m then (m - 1) :: adjustRev len rest else m :: rest

/-- The mark adjustment a bare pop applies, on the bottom-first mark
list. -/
def popMarks (len : Nat) (lb : List Nat) : List Nat :=
  (adjustRev len lb.reverse).reverse

/-- Gs::pop of src/main.rs: adjust the marks against the pre-pop stack
length, then remove and return the top of the stack, panicking on an
empty stack. -/
def popM : GsM Gval := fun s =>
  match s.stack.getLast? with
  | none => .error .fatal
  | some v =>
    .ok (v, { s with stack := s.stack.dropLast, lb := popMarks s.stack.length s.lb })

/-- Gs::top of src/main.rs: the top of the stack without removing it,
panicking on an empty stack. -/
def topM : GsM Gval := fun s =>
  match s.stack.getLast? with
  | none => .error .fatal
  | some v => .ok (v, s)

/-- Gs::dup of src/main.rs: pop (adjusting marks) and push back twice. -/
def dupM : GsM Unit := do
  let a ← popM
  pushM a
  pushM a

/-- Gs::go of src/main.rs: run a block's bytes as code, push any other
value. -/
def goVal (run : List Nat → GsM Unit) : Gval → GsM Unit
  | .blk s => run s
  | v => pushM v

/-- Gs::tilde of src/main.rs: bitwise NOT for an Int, splat for an Arr,
execute for a Str or Blk. -/
def tildeOp (run : List Nat → GsM Unit) : GsM Unit := do
  match ← popM with
  | .int n => pushM (.int (-(n + 1)))
  | .arr vs => extendM vs
  | .str bs => run bs
  | .blk bs => run bs

/-- Gs::backtick of src/main.rs: replace the top with its inspect
rendering. -/
def backtickOp : GsM Unit := do
  let v ← popM
  pushM (.str (inspectV v))

/-- Gs::bang of src/main.rs: logical negation to an Int flag. -/
def bangOp : GsM Unit := do
  let v ← popM
  pushM (gbool v.falsey)

/-- Gs::at_sign of src/main.rs: rotate the top three stack values. -/
def atSignOp : GsM Unit := do
  let c ← popM
  let b ← popM
  let a ← popM
  pushM b
  pushM c
  pushM a

/-- Int branch of Gs::dollar of src/main.rs: copy a stack entry selected
by the integer onto the top (counted from the top for non-negative,
from the bottom for values below -1), silently doing nothing when the
selection is out of range. -/
def dollarInt (n : Int) : GsM Unit := do
  let st ← getS
  let len : Int := st.stack.length
  if n < -1 then
    match toUsize (-n - 2) with
    | some i =>
      match st.stack.get? i with
      | some v => pushM v
      | none => pure ()
    | none => pure ()
  else if 0 ≤ n ∧ n < len then
    match toUsize (len - 1 - n) with
    | some i =>
      match st.stack.get? i with
      | some v => pushM v
      | none => pure ()
    | none => pure ()
  else pure ()

/-- Key collection pass of Gs::sort_by of src/main.rs: push each element,
run the block, and pop the resulting key. -/
def sortByKeys (run : List Nat → GsM Unit) (code : List Nat) (inj : α → Gval) :
    List α → GsM (List (Gval × α))
  | [] => pure []
  | v :: vs => do
    pushM (inj v)
    run code
    let k ← popM
    let rest ← sortByKeys run code inj vs
    pure ((k, v) :: rest)

/-- Gs::sort_by of src/main.rs: compute a key for each element by running
the block, then sort stably by key (Rust `sort_by` is stable, as is
`List.mergeSort`; since `gcmp` is a total order the results agree). -/
def sortByM (run : List Nat → GsM Unit) (code : List Nat) (inj : α → Gval)
    (vs : List α) : GsM (List α) := do
  let pairs ← sortByKeys run code inj vs
  pure ((pairs.mergeSort (fun x y => gcmp x.1 y.1 != Ordering.gt)).map (fun p => p.2))

/-- Gs::dollar of src/main.rs: stack pick for an Int, ascending sort for
an Arr or Str, and sort-by-key for a Blk over a popped sequence (with a
panic when that sequence is an Int). -/
def dollarOp (run : List Nat → GsM Unit) : GsM Unit := do
  match ← popM with
  | .int n => dollarInt n
  | .arr vs => pushM (.arr (vs.mergeSort (fun x y => gcmp x y != Ordering.gt)))
  | .str bs => pushM (.str (bs.mergeSort (fun x y => decide (x ≤ y))))
  | .blk code => do
    match ← popM with
    | .int _ => fatalE
    | .arr vs => do
      let r ← sortByM run code (fun v => v) vs
      pushM (.arr r)
    | .str vs => do
      let r ← sortByM run code (fun x : Nat => Gval.int x) vs
      pushM (.str r)
    | .blk vs => do
      let r ← sortByM run code (fun x : Nat => Gval.int x) vs
      pushM (.blk r)

/-- Gs::plus of src/main.rs: pop two values and push their coerced sum. -/
def plusOp : GsM Unit := do
  let b ← popM
  let a ← popM
  pushM (plusV a b)

/-- Gs::minus of src/main.rs: integer subtraction or order-preserving set
subtraction after coercion. -/
def minusOp : GsM Unit := do
  let b ← popM
  let a ← popM
  match coerce a b with
  | .ints x y => pushM (.int (x - y))
  | .arrs x y => pushM (.arr (setSubtract x y))
  | .strs x y => pushM (.str (setSubtract x y))
  | .blks x y => pushM (.blk (setSubtract x y))

/-- Gs::vertical_bar of src/main.rs: bitwise or set union after
coercion. -/
def vertBarOp : GsM Unit := do
  let b ← popM
  let a ← popM
  match coerce a b with
  | .ints x y => pushM (.int (Int.lor x y))
  | .arrs x y => pushM (.arr (setOr x y))
  | .strs x y => pushM (.str (setOr x y))
  | .blks x y => pushM (.blk (setOr x y))

/-- Gs::ampersand of src/main.rs: bitwise or set intersection after
coercion. -/
def ampersandOp : GsM Unit := do
  let b ← popM
  let a ← popM
  match coerce a b with
  | .ints x y => pushM (.int (Int.land x y))
  | .arrs x y => pushM (.arr (setAnd x y))
  | .strs x y => pushM (.str (setAnd x y))
  | .blks x y => pushM (.blk (setAnd x y))

/-- Gs::caret of src/main.rs: bitwise or set symmetric difference after
coercion. -/
def caretOp : GsM Unit := do
  let b ← popM
  let a ← popM
  match coerce a b with
  | .ints x y => pushM (.int (Int.xor x y))
  | .arrs x y => pushM (.arr (setXor x y))
  | .strs x y => pushM (.str (setXor x y))
  | .blks x y => pushM (.blk (setXor x y))

/-- Gs::fold of src/main.rs: push the first element bare, then push each
further element and run the block. -/
def foldM (run : List Nat → GsM Unit) (code : List Nat) :
    Bool → List Gval → GsM Unit
  | _, [] => pure ()
  | started, v :: vs => do
    pushM v
    if started then run code else pure ()
    foldM run code true vs

/-- Gs::each of src/main.rs: push each element and run the block. -/
def eachM (run : List Nat → GsM Unit) (code : List Nat) : List Gval → GsM Unit
  | [] => pure ()
  | v :: vs => do
    pushM v
    run code
    eachM run code vs

/-- Times branch of Gs::asterisk of src/main.rs: run the block while the
count stays positive. -/
def timesGo (run : List Nat → GsM Unit) (code : List Nat) : Nat → GsM Unit
  | 0 => pure ()
  | k + 1 => do
    run code
    timesGo run code k

/-- Gs::asterisk of src/main.rs: multiply, join, fold, repeat, or run a
block a number of times, by uncoerced dispatch on the operand kinds. -/
def asteriskOp (run : List Nat → GsM Unit) : GsM Unit := do
  let b ← popM
  let a ← popM
  match a, b with
  | .int x, .int y => pushM (.int (x * y))
  | .arr a1, .arr sep => pushM (joinV a1 (.arr sep))
  | .arr a1, .str sep | .str sep, .arr a1 => pushM (joinV a1 (.str sep))
  | .str a1, .str sep => pushM (joinV (a1.map (fun x => .str [x])) (.str sep))
  | .blk code, .blk a1 => foldM run code false (a1.map (fun x : Nat => Gval.int x))
  | .str a1, .blk code | .blk code, .str a1 => foldM run code false (a1.map (fun x : Nat => Gval.int x))
  | .arr a1, .blk code | .blk code, .arr a1 => foldM run code false a1
  | .int n, .arr a1 | .arr a1, .int n => pushM (.arr (repeatV a1 n))
  | .int n, .str a1 | .str a1, .int n => pushM (.str (repeatV a1 n))
  | .int n, .blk fb | .blk fb, .int n => timesGo run fb n.toNat

/-- Unfold branch of Gs::slash of src/main.rs, with fuel per iteration:
duplicate the top, run the condition, stop when it pops falsey, otherwise
record the top and run the step. -/
def unfoldGo (run : List Nat → GsM Unit) (cond step : List Nat) :
    Nat → List Gval → GsM (List Gval)
  | 0, _ => timeoutE
  | fuel + 1, acc => do
    let t ← topM
    pushM t
    run cond
    let c ← popM
    if c.falsey then pure acc
    else do
      let t2 ← topM
      run step
      unfoldGo run cond step fuel (acc ++ [t2])

/-- Gs::slash of src/main.rs: floor division, split keeping empty pieces,
each, chunk, or unfold, by uncoerced dispatch (division by zero and the
Int-Blk combination panic). -/
def slashOp (run : List Nat → GsM Unit) (fuel : Nat) : GsM Unit := do
  let b ← popM
  let a ← popM
  match a, b with
  | .int x, .int y => if y = 0 then fatalE else pushM (.int (x.fdiv y))
  | .arr a1, .arr sep =>
    match split a1 sep false with
    | none => timeoutE
    | some ps => pushM (.arr (ps.map (fun p => .arr p)))
  | .str a1, .str sep =>
    match split a1 sep false with
    | none => timeoutE
    | some ps => pushM (.arr (ps.map (fun p => .str p)))
  | .arr a1, .str sep | .str sep, .arr a1 =>
    match split a1 (sep.map (fun x : Nat => Gval.int x)) false with
    | none => timeoutE
    | some ps => pushM (.arr (ps.map (fun p => .arr p)))
  | .str a1, .blk code | .blk code, .str a1 => eachM run code (a1.map (fun x : Nat => Gval.int x))
  | .arr a1, .blk code | .blk code, .arr a1 => eachM run code a1
  | .int n, .arr a1 | .arr a1, .int n => do
    let c ← liftE (chunk a1 n)
    pushM (.arr (c.map (fun p => .arr p)))
  | .int n, .str a1 | .str a1, .int n => do
    let c ← liftE (chunk a1 n)
    pushM (.arr (c.map (fun p => .str p)))
  | .blk cond, .blk step => do
    let r ← unfoldGo run cond step fuel []
    let _ ← popM
    pushM (.arr r)
  | .blk _, .int _ | .int _, .blk _ => fatalE

/-- Gs::gs_map of src/main.rs: for each element remember the stack
length, push the element, run the block, and drain everything above the
remembered length into the result (a drain below the remembered length
cannot happen in Rust without a panic). -/
def gsMapGo (run : List Nat → GsM Unit) (code : List Nat) :
    List Gval → List Gval → GsM (List Gval)
  | acc, [] => pure acc
  | acc, v :: vs => do
    let st ← getS
    pushM v
    run code
    let st2 ← getS
    if st.stack.length ≤ st2.stack.length then do
      setS { st2 with stack := st2.stack.take st.stack.length }
      gsMapGo run code (acc ++ st2.stack.drop st.stack.length) vs
    else fatalE

/-- Gs::percent of src/main.rs: floor modulo, split dropping empty
pieces, map (flattening for Str input), or every-nth, by uncoerced
dispatch (modulo by zero and the unimplemented combinations panic). -/
def percentOp (run : List Nat → GsM Unit) : GsM Unit := do
  let b ← popM
  let a ← popM
  match a, b with
  | .int x, .int y => if y = 0 then fatalE else pushM (.int (x.fmod y))
  | .arr a1, .arr sep =>
    match split a1 sep true with
    | none => timeoutE
    | some ps => pushM (.arr (ps.map (fun p => .arr p)))
  | .str a1, .str sep =>
    match split a1 sep true with
    | none => timeoutE
    | some ps => pushM (.arr (ps.map (fun p => .str p)))
  | .arr a1, .str sep | .str sep, .arr a1 =>
    match split a1 (sep.map (fun x : Nat => Gval.int x)) true with
    | none => timeoutE
    | some ps => pushM (.arr (ps.map (fun p => .arr p)))
  | .arr a1, .blk code | .blk code, .arr a1 => do
    let r ← gsMapGo run code [] a1
    pushM (.arr r)
  | .str a1, .blk code | .blk code, .str a1 => do
    let r ← gsMapGo run code [] (a1.map (fun x : Nat => Gval.int x))
    pushM (.str (flattenL r))
  | .int n, .arr a1 | .arr a1, .int n => do
    let r ← liftE (everyNth a1 n)
    pushM (.arr r)
  | .int n, .str a1 | .str a1, .int n => do
    let r ← liftE (everyNth a1 n)
    pushM (.str r)
  | .int _, .blk _ | .blk _, .int _ | .blk _, .blk _ => fatalE

/-- Gs::lteqgt of src/main.rs: with an Int and a sequence (either operand
order), `=` indexes (pushing nothing when out of range, and pushing the
byte as an Int for Str and Blk) while `<` and `>` slice; any other
combination pushes the comparison flag. -/
def lteqgt (o : Ordering) : GsM Unit := do
  let b ← popM
  let a ← popM
  match a, b with
  | .int i, .arr h | .arr h, .int i =>
    if o = .eq then
      match index h i with
      | some x => pushM x
      | none => pure ()
    else do
      let l ← liftE (sliceSeq o h i)
      pushM (.arr l)
  | .int i, .str h | .str h, .int i =>
    if o = .eq then
      match index h i with
      | some x => pushM (.int x)
      | none => pure ()
    else do
      let l ← liftE (sliceSeq o h i)
      pushM (.str l)
  | .int i, .blk h | .blk h, .int i =>
    if o = .eq then
      match index h i with
      | some x => pushM (.int x)
      | none => pure ()
    else do
      let l ← liftE (sliceSeq o h i)
      pushM (.blk l)
  | x, y => pushM (gbool (gcmp x y == o))

/-- Filter pass of Gs::select of src/main.rs: push each element, run the
block, pop the flag, and keep the element iff truthy. -/
def selectGo (run : List Nat → GsM Unit) (code : List Nat) (inj : α → Gval) :
    List α → GsM (List α)
  | [] => pure []
  | v :: vs => do
    pushM (inj v)
    run code
    let c ← popM
    let rest ← selectGo run code inj vs
    pure (if c.truthy then v :: rest else rest)

/-- Gs::comma of src/main.rs: a range for an Int, the length for a
sequence, and a filter for a Blk over a popped sequence (an Int there
panics). -/
def commaOp (run : List Nat → GsM Unit) : GsM Unit := do
  match ← popM with
  | .int n => pushM (.arr ((List.range n.toNat).map (fun k => .int k)))
  | .arr a => pushM (.int a.length)
  | .str a => pushM (.int a.length)
  | .blk code => do
    match ← popM with
    | .int _ => fatalE
    | .arr a => do
      let r ← selectGo run code (fun v => v) a
      pushM (.arr r)
    | .str a => do
      let r ← selectGo run code (fun x : Nat => Gval.int x) a
      pushM (.str r)
    | .blk a => do
      let r ← selectGo run code (fun x : Nat => Gval.int x) a
      pushM (.blk r)

/-- Position of the first element equal to the needle, or -1 (the indexof
arms of Gs::question of src/main.rs). -/
def posIn (h : List Gval) (n : Gval) : Int :=
  match h.findIdx? (fun x => x == n) with
  | some i => i
  | none => -1

/-- Model of `BigInt::to_u8`: defined exactly on 0..255. -/
def toU8 (n : Int) : Option Nat :=
  if 0 ≤ n ∧ n < 256 then some n.toNat else none

/-- Byte-needle search of Gs::question of src/main.rs: -1 when the
needle does not fit a byte, otherwise the position of the first equal
byte or -1. -/
def posByte (h : List Nat) (n : Int) : Int :=
  match toU8 n with
  | none => -1
  | some byte =>
    match h.findIdx? (fun x => x == byte) with
    | some i => i
    | none => -1

/-- Find pass of Gs::find of src/main.rs: push each element, run the
block, pop the flag; on the first truthy flag push the element back and
stop. -/
def findGo (run : List Nat → GsM Unit) (code : List Nat) (inj : α → Gval) :
    List α → GsM Unit
  | [] => pure ()
  | v :: vs => do
    pushM (inj v)
    run code
    let c ← popM
    if c.truthy then pushM (inj v) else findGo run code inj vs

/-- Gs::question of src/main.rs: integer power (exponents outside u32
give 0), index-of searches, substring search, or find with a block (the
Int-Blk combination panics). -/
def questionOp (run : List Nat → GsM Unit) : GsM Unit := do
  let b ← popM
  let a ← popM
  match a, b with
  | .int x, .int y =>
    pushM (.int (if 0 ≤ y ∧ y < 2 ^ 32 then x ^ y.toNat else 0))
  | .arr h, .int m | .int m, .arr h => pushM (.int (posIn h (.int m)))
  | .arr h, .str s1 | .str s1, .arr h => pushM (.int (posIn h (.str s1)))
  | .arr h, .arr n1 => pushM (.int (posIn h (.arr n1)))
  | .str h, .int m | .int m, .str h => pushM (.int (posByte h m))
  | .str h, .str n1 => pushM (.int (stringIndex h n1))
  | .int _, .blk _ | .blk _, .int _ => fatalE
  | .blk code, .blk a1 => findGo run code (fun x : Nat => Gval.int x) a1
  | .blk code, .str a1 | .str a1, .blk code => findGo run code (fun x : Nat => Gval.int x) a1
  | .blk code, .arr a1 | .arr a1, .blk code => findGo run code (fun v => v) a1

/-- Gs::left_paren of src/main.rs: decrement an Int; for a sequence push
the remainder after the first element and then the first element (empty
sequences panic on the out-of-range slice). -/
def leftParen : GsM Unit := do
  match ← popM with
  | .int n => pushM (.int (n - 1))
  | .arr a =>
    match a with
    | [] => fatalE
    | x :: rest => do
      pushM (.arr rest)
      pushM x
  | .str a =>
    match a with
    | [] => fatalE
    | x :: rest => do
      pushM (.str rest)
      pushM (.int x)
  | .blk a =>
    match a with
    | [] => fatalE
    | x :: rest => do
      pushM (.blk rest)
      pushM (.int x)

/-- Gs::right_paren of src/main.rs: increment an Int; for a sequence push
the remainder before the last element and then the last element (empty
sequences panic on the unwrap). -/
def rightParen : GsM Unit := do
  match ← popM with
  | .int n => pushM (.int (n + 1))
  | .arr a =>
    match a.getLast? with
    | none => fatalE
    | some l => do
      pushM (.arr a.dropLast)
      pushM l
  | .str a =>
    match a.getLast? with
    | none => fatalE
    | some l => do
      pushM (.str a.dropLast)
      pushM (.int l)
  | .blk a =>
    match a.getLast? with
    | none => fatalE
    | some l => do
      pushM (.blk a.dropLast)
      pushM (.int l)

/-- Gs::rng of src/main.rs: one step of the linear congruential
generator, wrapping 64-bit multiply and add, returning the new state. -/
def rngM : GsM Nat := fun s =>
  let m := (s.rng * 1664525 + 1013904223) % 2 ^ 64
  .ok (m, { s with rng := m })

/-- Gs::rand of src/main.rs: for a positive Int advance the generator
once and push the new state modulo the Int; for anything else push 0
without touching the generator. -/
def randOp : GsM Unit := do
  match ← popM with
  | .int n =>
    if 0 < n then do
      let r ← rngM
      pushM (.int ((r : Int) % n))
    else pushM (.int 0)
  | _ => pushM (.int 0)

/-- Iterations of Gs::do_loop of src/main.rs, with fuel: go the body,
pop, stop when falsey. -/
def doLoopGo (run : List Nat → GsM Unit) (a : Gval) : Nat → GsM Unit
  | 0 => timeoutE
  | fuel + 1 => do
    goVal run a
    let c ← popM
    if c.falsey then pure () else doLoopGo run a fuel

/-- Gs::do_loop of src/main.rs. -/
def doLoop (run : List Nat → GsM Unit) (fuel : Nat) : GsM Unit := do
  let a ← popM
  doLoopGo run a fuel

/-- Iterations of Gs::while_loop of src/main.rs, with fuel: go the
condition, pop, stop when the falsiness equals `which`, otherwise go the
body and repeat. -/
def whileGo (run : List Nat → GsM Unit) (which : Bool) (a b : Gval) : Nat → GsM Unit
  | 0 => timeoutE
  | fuel + 1 => do
    goVal run a
    let c ← popM
    if c.falsey = which then pure ()
    else do
      goVal run b
      whileGo run which a b fuel

/-- Gs::while_loop of src/main.rs (`which` is true for `while`, false for
`until`). -/
def whileLoop (run : List Nat → GsM Unit) (which : Bool) (fuel : Nat) : GsM Unit := do
  let b ← popM
  let a ← popM
  whileGo run which a b fuel

/-- Pad the transposition accumulator with blanks up to the given length
(the inner while loop of Gs::zip of src/main.rs). -/
def padTo (r : List Gval) (n : Nat) (blank : Gval) : List Gval :=
  r ++ List.replicate (n - r.length) blank

/-- One row of Gs::zip of src/main.rs: append each element to the
accumulator entry of its column, padding with blanks as needed. -/
def zipRow (blank : Gval) : List Gval → Nat → List Gval → Except Err (List Gval)
  | r, _, [] => .ok r
  | r, y, e :: es =>
    let r2 := padTo r (y + 1) blank
    match gpushVal (r2.getD y (.arr [])) e with
    | .error err => .error err
    | .ok v2 => zipRow blank (r2.set y v2) (y + 1) es

/-- All rows of Gs::zip of src/main.rs. -/
def zipRows (blank : Gval) : List Gval → List Gval → Except Err (List Gval)
  | r, [] => .ok r
  | r, row :: rows =>
    match intoArr row with
    | .error e => .error e
    | .ok elems =>
      match zipRow blank r 0 elems with
      | .error e => .error e
      | .ok r2 => zipRows blank r2 rows

/-- Gs::zip of src/main.rs: pop an Arr of rows (anything else panics) and
push its transposition, with the blank determined by the first row's
kind. -/
def zipOp : GsM Unit := do
  match ← popM with
  | .arr rows => do
    let blank :=
      match rows.head? with
      | none => Gval.arr []
      | some x => factory x
    let r ← liftE (zipRows blank [] rows)
    pushM (.arr r)
  | _ => fatalE

/-- Digit loop of the Int branch of Gs::base of src/main.rs, with fuel:
repeatedly floor-divide, collecting remainders most significant first;
a zero base panics on division by zero (a base of magnitude one can spin
forever, which the fuel bound models). -/
def digitsLoop : Nat → Int → Int → Except Err (List Int)
  | 0, _, _ => .error .timeout
  | f + 1, b, i =>
    if i = 0 then .ok []
    else if b = 0 then .error .fatal
    else
      match digitsLoop f b (i.fdiv b) with
      | .error e => .error e
      | .ok ds => .ok (ds ++ [i.fmod b])

/-- Horner evaluation of a digit list, most significant first. -/
def horner (b : Int) (ds : List Int) : Int := ds.foldl (fun t d => t * b + d) 0

/-- Horner loop of the Arr branch of Gs::base of src/main.rs: each digit
must be an Int (anything else panics on unwrap_int). -/
def hornerE (b : Int) : List Gval → Int → Except Err Int
  | [], acc => .ok acc
  | v :: vs, acc =>
    match unwrapInt v with
    | .error e => .error e
    | .ok d => hornerE b vs (acc * b + d)

/-- Gs::base of src/main.rs: pop the base (must be an Int) and then
either an Int (push its absolute value's digits, most significant first)
or a digit sequence (push the Horner sum). -/
def baseOp (fuel : Nat) : GsM Unit := do
  let bv ← popM
  let b ← liftE (unwrapInt bv)
  match ← popM with
  | .int n => do
    let ds ← liftE (digitsLoop fuel b (n.natAbs : Int))
    pushM (.arr (ds.map (fun d => .int d)))
  | v => do
    let elems ← liftE (intoArr v)
    let total ← liftE (hornerE b elems 0)
    pushM (.int total)

/-- Mark push of the `[` token in Gs::run_token of src/main.rs. -/
def lbPushOp : GsM Unit := fun s =>
  .ok ((), { s with lb := s.lb ++ [s.stack.length] })

/-- Collect of the `]` token in Gs::run_token of src/main.rs: pop the
most recent mark (0 when none), drain the stack from it (a mark above
the stack length would panic the drain), and push the drained values as
an Arr. -/
def rbCollectOp : GsM Unit := fun s =>
  let m :=
    match s.lb.getLast? with
    | none => 0
    | some m => m
  if m ≤ s.stack.length then
    .ok ((), { s with stack := s.stack.take m ++ [.arr (s.stack.drop m)],
                      lb := s.lb.dropLast })
  else .error .fatal

/-- Swap of the backslash token in Gs::run_token of src/main.rs. -/
def swapOp : GsM Unit := do
  let b ← popM
  let a ← popM
  pushM b
  pushM a

/-- Discard of the `;` token in Gs::run_token of src/main.rs. -/
def discardOp : GsM Unit := do
  let _ ← popM
  pure ()

/-- Append bytes to the standard-output log (the `print` helper of
src/main.rs). -/
def printOut (bs : List Nat) : GsM Unit := fun s =>
  .ok ((), { s with out := s.out ++ bs })

/-- The `and` token of Gs::run_token of src/main.rs. -/
def andOp (run : List Nat → GsM Unit) : GsM Unit := do
  let b ← popM
  let a ← popM
  goVal run (if a.truthy then b else a)

/-- The `or` token of Gs::run_token of src/main.rs. -/
def orOp (run : List Nat → GsM Unit) : GsM Unit := do
  let b ← popM
  let a ← popM
  goVal run (if a.falsey then b else a)

/-- The `xor` token of Gs::run_token of src/main.rs. -/
def xorOp : GsM Unit := do
  let b ← popM
  let a ← popM
  pushM (gbool (a.truthy.xor b.truthy))

/-- The `if` token of Gs::run_token of src/main.rs. -/
def ifOp (run : List Nat → GsM Unit) : GsM Unit := do
  let c ← popM
  let b ← popM
  let a ← popM
  if a.truthy then goVal run b else goVal run c

/-- The `abs` token of Gs::run_token of src/main.rs: the popped value
must be an Int. -/
def absOp : GsM Unit := do
  let a ← popM
  let n ← liftE (unwrapInt a)
  pushM (.int (n.natAbs : Int))

/-- The `print` token of Gs::run_token of src/main.rs (`into_gs` is
modelled by to_gs, which the spec names as what print writes). -/
def printTok : GsM Unit := do
  let a ← popM
  printOut (toGs a)

/-- The `p` token of Gs::run_token of src/main.rs. -/
def pTok : GsM Unit := do
  let a ← popM
  printOut (inspectV a ++ [10])

/-- The `puts` token of Gs::run_token of src/main.rs. -/
def putsTok : GsM Unit := do
  let a ← popM
  printOut (toGs a ++ [10])

/-- Value of an integer-literal lexeme, `BigInt::parse_bytes(bs, 10)` of
src/main.rs: optional leading minus then decimal digits, panicking on
anything else (unreachable for parser-produced tokens). -/
def intLitVal (bs : List Nat) : Except Err Int :=
  match bs with
  | 45 :: ds =>
    if ds ≠ [] ∧ ds.all isDigitB then
      .ok (-(ds.foldl (fun acc d => acc * 10 + (d - 48)) 0 : Nat))
    else .error .fatal
  | ds =>
    if ds ≠ [] ∧ ds.all isDigitB then
      .ok ((ds.foldl (fun acc d => acc * 10 + (d - 48)) 0 : Nat))
    else .error .fatal

/-- The symbol arms of Gs::run_token of src/main.rs in source order; a
symbol matching none of them falls through to the final no-op arm. -/
def symbolDispatch (run : List Nat → GsM Unit) (fuel : Nat) (s : List Nat) : GsM Unit :=
  if s = [126] then tildeOp run
  else if s = [96] then backtickOp
  else if s = [33] then bangOp
  else if s = [64] then atSignOp
  else if s = [36] then dollarOp run
  else if s = [43] then plusOp
  else if s = [45] then minusOp
  else if s = [42] then asteriskOp run
  else if s = [47] then slashOp run fuel
  else if s = [37] then percentOp run
  else if s = [124] then vertBarOp
  else if s = [38] then ampersandOp
  else if s = [94] then caretOp
  else if s = [91] then lbPushOp
  else if s = [93] then rbCollectOp
  else if s = [92] then swapOp
  else if s = [59] then discardOp
  else if s = [60] then lteqgt .lt
  else if s = [61] then lteqgt .eq
  else if s = [62] then lteqgt .gt
  else if s = [44] then commaOp run
  else if s = [46] then dupM
  else if s = [63] then questionOp run
  else if s = [40] then leftParen
  else if s = [41] then rightParen
  else if s = [97, 110, 100] then andOp run
  else if s = [111, 114] then orOp run
  else if s = [120, 111, 114] then xorOp
  else if s = [110] then pushM (.str [10])
  else if s = [112, 114, 105, 110, 116] then printTok
  else if s = [112] then pTok
  else if s = [112, 117, 116, 115] then putsTok
  else if s = [114, 97, 110, 100] then randOp
  else if s = [100, 111] then doLoop run fuel
  else if s = [119, 104, 105, 108, 101] then whileLoop run true fuel
  else if s = [117, 110, 116, 105, 108] then whileLoop run false fuel
  else if s = [105, 102] then ifOp run
  else if s = [97, 98, 115] then absOp
  else if s = [122, 105, 112] then zipOp
  else if s = [98, 97, 115, 101] then baseOp fuel
  else pure ()

/-- Gs::run_token of src/main.rs: a token whose lexeme is a bound
variable fetches and goes the value; otherwise literals push their value,
a block pushes its source bytes as a Blk, a comment is ignored, and a
symbol dispatches to its primitive (or to nothing). -/
def runToken (run : List Nat → GsM Unit) (fuel : Nat) (t : Gtoken) : GsM Unit := do
  let st ← getS
  match lookupVar st.vars (lexeme t) with
  | some v => goVal run v
  | none =>
    match t with
    | .intLiteral bs => do
      let n ← liftE (intLitVal bs)
      pushM (.int n)
    | .singleQuoted bs => pushM (.str (unescape bs true))
    | .doubleQuoted bs => pushM (.str (unescape bs false))
    | .block _ src => pushM (.blk src)
    | .comment _ => pure ()
    | .symbol s => symbolDispatch run fuel s

/-- The token loop of Gs::run of src/main.rs: a `:` symbol consumes the
next token unconditionally (its absence panics) and binds that token's
lexeme to the current top of the stack without popping; every other token
is dispatched through run_token. -/
def runTokens (run : List Nat → GsM Unit) (fuel : Nat) : List Gtoken → GsM Unit
  | [] => pure ()
  | .symbol s :: rest =>
    if s = [58] then
      match rest with
      | [] => fatalE
      | name :: rest2 => do
        let t ← topM
        let st ← getS
        setS { st with vars := (lexeme name, t) :: st.vars }
        runTokens run fuel rest2
    else do
      runToken run fuel (.symbol s)
      runTokens run fuel rest
  | t :: rest => do
    runToken run fuel t
    runTokens run fuel rest

/-- Gs::run of src/main.rs, with fuel consumed at each recursive
re-entry: tokenize (a remainder is a fatal parse error) and execute the
token sequence. -/
def runCode : Nat → List Nat → GsM Unit
  | 0, _ => timeoutE
  | f + 1, code =>
    match parseCode (code.length + 1) code with
    | none => timeoutE
    | some (ts, rest) =>
      if rest.isEmpty then runTokens (runCode f) f ts else fatalE

/-!
Lemmas for stepping evaluator computations: how each monadic primitive
acts on an explicit state, and how a bind advances once its first
component is known.
-/

theorem bind_ok {α β : Type} {x : GsM α} {g : α → GsM β} {s s' : GsState} {a : α}
    (h : x s = .ok (a, s')) : (x >>= g) s = g a s' := by
  show GsM.bind x g s = g a s'
  unfold GsM.bind
  rw [h]

theorem bind_err {α β : Type} {x : GsM α} {g : α → GsM β} {s : GsState} {e : Err}
    (h : x s = .error e) : (x >>= g) s = .error e := by
  show GsM.bind x g s = .error e
  unfold GsM.bind
  rw [h]

theorem pure_apply (a : α) (s : GsState) : (Pure.pure a : GsM α) s = .ok (a, s) := rfl

theorem getS_apply (s : GsState) : getS s = .ok (s, s) := rfl

theorem pushM_apply (v : Gval) (stack vars lb rng out) :
    pushM v ⟨stack, vars, lb, rng, out⟩ = .ok ((), ⟨stack ++ [v], vars, lb, rng, out⟩) := rfl

theorem popM_concat (st : List Gval) (v : Gval) (vars lb rng out) :
    popM ⟨st ++ [v], vars, lb, rng, out⟩ =
      .ok (v, ⟨st, vars, popMarks (st.length + 1) lb, rng, out⟩) := by
  simp [popM, List.getLast?_concat, List.dropLast_concat]

theorem topM_concat (st : List Gval) (v : Gval) (vars lb rng out) :
    topM ⟨st ++ [v], vars, lb, rng, out⟩ =
      .ok (v, ⟨st ++ [v], vars, lb, rng, out⟩) := by
  simp [topM, List.getLast?_concat]

theorem popM_nil_marks (st : List Gval) (v : Gval) (vars rng out) :
    popM ⟨st ++ [v], vars, [], rng, out⟩ = .ok (v, ⟨st, vars, [], rng, out⟩) := by
  rw [popM_concat]
  rfl

theorem liftE_ok {α : Type} {e : Except Err α} {a : α} (h : e = .ok a) (s : GsState) :
    liftE e s = .ok (a, s) := by
  rw [h]
  rfl

theorem liftE_err {α : Type} {e : Except Err α} {err : Err} (h : e = .error err) (s : GsState) :
    liftE e s = .error err := by
  rw [h]
  rfl

/-!
Claim C1.  A bare pop returns the top of the stack, walks the marks from
the top downward decrementing every mark at least the pre-pop stack
length, stops at the first smaller mark, and changes nothing else.
-/

theorem adjustRev_split (len : Nat) (l : List Nat) :
    ∃ j ≤ l.length, adjustRev len l = (l.take j).map (fun m => m - 1) ++ l.drop j ∧
      (∀ m ∈ l.take j, len ≤ m) ∧
      (j = l.length ∨ ∃ m, l.get? j = some m ∧ m < len) := by
  induction l with
  | nil => exact ⟨0, Nat.le_refl 0, by simp [adjustRev], by simp, Or.inl rfl⟩
  | cons m rest ih =>
    by_cases h : len ≤ m
    · obtain ⟨j, hj, he, hall, hstop⟩ := ih
      refine ⟨j + 1, by simpa using hj, ?_, ?_, ?_⟩
      · simp [adjustRev, h, he]
      · intro x hx
        rw [List.take_succ_cons] at hx
        rcases List.mem_cons.mp hx with hx | hx
        · exact hx ▸ h
        · exact hall x hx
      · rcases hstop with hstop | ⟨m2, hm2, hlt⟩
        · exact Or.inl (by simp [hstop])
        · exact Or.inr ⟨m2, by simpa using hm2, hlt⟩
    · exact ⟨0, Nat.zero_le _, by simp [adjustRev, h], by simp,
        Or.inr ⟨m, rfl, by omega⟩⟩

theorem popMarks_split (len : Nat) (lb : List Nat) :
    ∃ k ≤ lb.length, popMarks len lb = lb.take k ++ (lb.drop k).map (fun m => m - 1) ∧
      (∀ m ∈ lb.drop k, len ≤ m) ∧
      (k = 0 ∨ ∃ m, lb.get? (k - 1) = some m ∧ m < len) := by
  obtain ⟨j, hj, he, hall, hstop⟩ := adjustRev_split len lb.reverse
  rw [List.length_reverse] at hj
  refine ⟨lb.length - j, Nat.sub_le _ _, ?_, ?_, ?_⟩
  · rw [popMarks, he, List.reverse_append, List.take_reverse, List.drop_reverse]
    simp
  · intro m hm
    apply hall
    rw [List.take_reverse]
    exact List.mem_reverse.mpr hm
  · rcases hstop with hstop | ⟨m, hm, hlt⟩
    · rw [List.length_reverse] at hstop
      exact Or.inl (by omega)
    · obtain ⟨h1, _⟩ := List.get?_eq_some.mp hm
      rw [List.length_reverse] at h1
      refine Or.inr ⟨m, ?_, hlt⟩
      rw [List.get?_reverse h1] at hm
      rwa [Nat.sub_right_comm] at hm

/-- C1: for every evaluator state with a non-empty stack, a bare pop
returns the top of the stack and removes it; the marks list splits at a
position k such that every mark from k upward (the walk from the top
downward) is at least the pre-pop stack length and is decremented
(natural subtraction flooring at 0), the mark just below k (the first one
smaller than the stack length, when k > 0) is smaller than the stack
length, marks below it are unchanged, and the variables, PRNG state and
output are unchanged. -/
theorem c1_pop_mark_walk (s : GsState) (st : List Gval) (v : Gval)
    (h : s.stack = st ++ [v]) :
    ∃ k ≤ s.lb.length,
      popM s = .ok (v, ⟨st, s.vars,
        s.lb.take k ++ (s.lb.drop k).map (fun m => m - 1), s.rng, s.out⟩) ∧
      (∀ m ∈ s.lb.drop k, s.stack.length ≤ m) ∧
      (k = 0 ∨ ∃ m, s.lb.get? (k - 1) = some m ∧ m < s.stack.length) := by
  obtain ⟨k, hk, he, hall, hstop⟩ := popMarks_split s.stack.length s.lb
  refine ⟨k, hk, ?_, hall, hstop⟩
  obtain ⟨stack, vars, lb, rng, out⟩ := s
  simp only at h
  subst h
  rw [popM_concat]
  simp only [List.length_append, List.length_cons, List.length_nil] at he ⊢
  rw [he]

/-- Witness for C1 at a concrete state: stack of two values and marks
[0, 1, 2, 2]; the two top marks are walked down to 1 and the rest stay. -/
theorem c1_pop_mark_walk_witness :
    ∃ k ≤ 4,
      popM ⟨[.int 5, .int 7], [], [0, 1, 2, 2], 9, []⟩ =
        .ok (.int 7, ⟨[.int 5], [],
          List.take k [0, 1, 2, 2] ++ (List.drop k [0, 1, 2, 2]).map (fun m => m - 1),
          9, []⟩) ∧
      (∀ m ∈ List.drop k [0, 1, 2, 2], 2 ≤ m) ∧
      (k = 0 ∨ ∃ m, List.get? [0, 1, 2, 2] (k - 1) = some m ∧ m < 2) :=
  c1_pop_mark_walk ⟨[.int 5, .int 7], [], [0, 1, 2, 2], 9, []⟩ [.int 5] (.int 7) rfl

/-- C9: executing `(` or `)` with an empty sequence (empty Arr, Str or
Blk) on top of the stack aborts fatally in every state; it never succeeds
as a no-op or pushes anything. -/
theorem c9_uncons_empty_fatal (st : List Gval) (vars : List (List Nat × Gval))
    (lb : List Nat) (rng : Nat) (out : List Nat) :
    leftParen ⟨st ++ [.arr []], vars, lb, rng, out⟩ = .error .fatal ∧
    leftParen ⟨st ++ [.str []], vars, lb, rng, out⟩ = .error .fatal ∧
    leftParen ⟨st ++ [.blk []], vars, lb, rng, out⟩ = .error .fatal ∧
    rightParen ⟨st ++ [.arr []], vars, lb, rng, out⟩ = .error .fatal ∧
    rightParen ⟨st ++ [.str []], vars, lb, rng, out⟩ = .error .fatal ∧
    rightParen ⟨st ++ [.blk []], vars, lb, rng, out⟩ = .error .fatal := by
  refine ⟨?_, ?_, ?_, ?_, ?_, ?_⟩
  · simp only [leftParen]
    rw [bind_ok (popM_concat st (.arr []) vars lb rng out)]
    rfl
  · simp only [leftParen]
    rw [bind_ok (popM_concat st (.str []) vars lb rng out)]
    rfl
  · simp only [leftParen]
    rw [bind_ok (popM_concat st (.blk []) vars lb rng out)]
    rfl
  · simp only [rightParen]
    rw [bind_ok (popM_concat st (.arr []) vars lb rng out)]
    rfl
  · simp only [rightParen]
    rw [bind_ok (popM_concat st (.str []) vars lb rng out)]
    rfl
  · simp only [rightParen]
    rw [bind_ok (popM_concat st (.blk []) vars lb rng out)]
    rfl

/-- How the one step of the linear congruential generator acts on an
explicit state. -/
theorem rngM_apply (stack vars lb rng out) :
    rngM ⟨stack, vars, lb, rng, out⟩ =
      .ok ((rng * 1664525 + 1013904223) % 2 ^ 64,
        ⟨stack, vars, lb, (rng * 1664525 + 1013904223) % 2 ^ 64, out⟩) := rfl

/-- C10: `rand` advances the PRNG state by one LCG step (state times
1664525 plus 1013904223, mod 2 to the 64) exactly when the popped value
is an Int greater than 0, pushing the new state modulo that Int; for an
Int at most 0 and for every Arr, Str or Blk it pushes Int 0 and leaves
the PRNG state unchanged, without aborting. -/
theorem c10_rand_lcg (st : List Gval) (vars : List (List Nat × Gval))
    (lb : List Nat) (rng : Nat) (out : List Nat) :
    (∀ n : Int, 0 < n →
      randOp ⟨st ++ [.int n], vars, lb, rng, out⟩ =
        .ok ((), ⟨st ++ [.int ((((rng * 1664525 + 1013904223) % 2 ^ 64 : Nat) : Int) % n)],
          vars, popMarks (st.length + 1) lb, (rng * 1664525 + 1013904223) % 2 ^ 64, out⟩)) ∧
    (∀ n : Int, ¬0 < n →
      randOp ⟨st ++ [.int n], vars, lb, rng, out⟩ =
        .ok ((), ⟨st ++ [.int 0], vars, popMarks (st.length + 1) lb, rng, out⟩)) ∧
    (∀ vs : List Gval,
      randOp ⟨st ++ [.arr vs], vars, lb, rng, out⟩ =
        .ok ((), ⟨st ++ [.int 0], vars, popMarks (st.length + 1) lb, rng, out⟩)) ∧
    (∀ bs : List Nat,
      randOp ⟨st ++ [.str bs], vars, lb, rng, out⟩ =
        .ok ((), ⟨st ++ [.int 0], vars, popMarks (st.length + 1) lb, rng, out⟩)) ∧
    (∀ bs : List Nat,
      randOp ⟨st ++ [.blk bs], vars, lb, rng, out⟩ =
        .ok ((), ⟨st ++ [.int 0], vars, popMarks (st.length + 1) lb, rng, out⟩)) := by
  refine ⟨?_, ?_, ?_, ?_, ?_⟩
  · intro n hn
    simp only [randOp]
    rw [bind_ok (popM_concat st (Gval.int n) vars lb rng out)]
    show (if 0 < n then rngM >>= fun r => pushM (Gval.int ((r : Int) % n))
        else pushM (Gval.int 0))
      ⟨st, vars, popMarks (st.length + 1) lb, rng, out⟩ = _
    rw [if_pos hn, bind_ok (rngM_apply st vars (popMarks (st.length + 1) lb) rng out)]
    rfl
  · intro n hn
    simp only [randOp]
    rw [bind_ok (popM_concat st (Gval.int n) vars lb rng out)]
    show (if 0 < n then rngM >>= fun r => pushM (Gval.int ((r : Int) % n))
        else pushM (Gval.int 0))
      ⟨st, vars, popMarks (st.length + 1) lb, rng, out⟩ = _
    rw [if_neg hn]
    rfl
  · intro vs
    simp only [randOp]
    rw [bind_ok (popM_concat st (Gval.arr vs) vars lb rng out)]
    rfl
  · intro bs
    simp only [randOp]
    rw [bind_ok (popM_concat st (Gval.str bs) vars lb rng out)]
    rfl
  · intro bs
    simp only [randOp]
    rw [bind_ok (popM_concat st (Gval.blk bs) vars lb rng out)]
    rfl

/-- Witness for C10 at concrete inputs: a positive Int advances the seed
and pushes seed mod 10, a negative Int and a Str push 0 without touching
the seed. -/
theorem c10_rand_lcg_witness :
    ((0 : Int) < 10 ∧
      randOp ⟨[], [], [], 123456789, []⟩ = randOp ⟨[], [], [], 123456789, []⟩) ∧
    randOp ⟨[.int 10], [], [], 123456789, []⟩ =
      .ok ((), ⟨[.int ((((123456789 * 1664525 + 1013904223) % 2 ^ 64 : Nat) : Int) % 10)],
        [], [], (123456789 * 1664525 + 1013904223) % 2 ^ 64, []⟩) ∧
    randOp ⟨[.int (-3)], [], [], 7, []⟩ = .ok ((), ⟨[.int 0], [], [], 7, []⟩) ∧
    randOp ⟨[.str [1, 2]], [], [], 7, []⟩ = .ok ((), ⟨[.int 0], [], [], 7, []⟩) :=
  ⟨⟨by norm_num, rfl⟩,
    (c10_rand_lcg [] [] [] 123456789 []).1 10 (by norm_num),
    (c10_rand_lcg [] [] [] 7 []).2.1 (-3) (by norm_num),
    (c10_rand_lcg [] [] [] 7 []).2.2.2.1 [1, 2]⟩

/-- C6: `?` on two Ints pushes the left operand raised to the right
operand when the exponent is non-negative and representable in a 32-bit
machine word, and pushes Int 0 otherwise (negative or unrepresentable
exponent), in every state and for every run callback. -/
theorem c6_question_power (runF : List Nat → GsM Unit) (st : List Gval)
    (vars : List (List Nat × Gval)) (lb : List Nat) (rng : Nat) (out : List Nat)
    (a b : Int) :
    questionOp runF ⟨st ++ [.int a, .int b], vars, lb, rng, out⟩ =
      .ok ((), ⟨st ++ [.int (if 0 ≤ b ∧ b < 2 ^ 32 then a ^ b.toNat else 0)],
        vars, popMarks (st.length + 1) (popMarks (st.length + 2) lb), rng, out⟩) := by
  have hs : st ++ [Gval.int a, Gval.int b] = (st ++ [Gval.int a]) ++ [Gval.int b] := by simp
  simp only [questionOp]
  rw [hs, bind_ok (popM_concat (st ++ [Gval.int a]) (Gval.int b) vars lb rng out)]
  rw [bind_ok (popM_concat st (Gval.int a) vars
    (popMarks ((st ++ [Gval.int a]).length + 1) lb) rng out)]
  show pushM (Gval.int (if 0 ≤ b ∧ b < 2 ^ 32 then a ^ b.toNat else 0))
      ⟨st, vars,
        popMarks (st.length + 1) (popMarks ((st ++ [Gval.int a]).length + 1) lb), rng, out⟩ = _
  rw [pushM_apply]
  simp [List.length_append]

/-- Counterexample to C3 as stated: `=` on the Blk with bytes "abc" and
Int 0 pushes the Int 97, which is not the one-byte Str [97] the claim
asserts. -/
theorem c3_blk_eq_counterexample :
    lteqgt .eq ⟨[.blk [97, 98, 99], .int 0], [], [], 1, []⟩ =
      .ok ((), ⟨[.int 97], [], [], 1, []⟩) ∧
    Gval.int 97 ≠ Gval.str [97] := ⟨rfl, by decide⟩

/-- C3 amended: for every Blk h and Int i in range after negative
wrap-around (the selected byte is c), executing `=` on h and i in either
operand order pushes the Int c (the byte promoted to an Int), not a
one-byte Str. -/
theorem c3_blk_eq_pushes_int (st : List Gval) (vars : List (List Nat × Gval))
    (rng : Nat) (out : List Nat) (h : List Nat) (i : Int) (c : Nat)
    (hidx : index h i = some c) :
    lteqgt .eq ⟨st ++ [.blk h, .int i], vars, [], rng, out⟩ =
      .ok ((), ⟨st ++ [.int c], vars, [], rng, out⟩) ∧
    lteqgt .eq ⟨st ++ [.int i, .blk h], vars, [], rng, out⟩ =
      .ok ((), ⟨st ++ [.int c], vars, [], rng, out⟩) := by
  constructor
  · simp only [lteqgt]
    rw [show st ++ [Gval.blk h, Gval.int i] = (st ++ [Gval.blk h]) ++ [Gval.int i] from by simp]
    rw [bind_ok (popM_nil_marks (st ++ [Gval.blk h]) (Gval.int i) vars rng out)]
    rw [bind_ok (popM_nil_marks st (Gval.blk h) vars rng out)]
    show (match index h i with
      | some x => pushM (Gval.int x)
      | none => (Pure.pure () : GsM Unit)) ⟨st, vars, [], rng, out⟩ = _
    rw [hidx]
    rfl
  · simp only [lteqgt]
    rw [show st ++ [Gval.int i, Gval.blk h] = (st ++ [Gval.int i]) ++ [Gval.blk h] from by simp]
    rw [bind_ok (popM_nil_marks (st ++ [Gval.int i]) (Gval.blk h) vars rng out)]
    rw [bind_ok (popM_nil_marks st (Gval.int i) vars rng out)]
    show (match index h i with
      | some x => pushM (Gval.int x)
      | none => (Pure.pure () : GsM Unit)) ⟨st, vars, [], rng, out⟩ = _
    rw [hidx]
    rfl

/-- Witness for the amended C3 at a concrete input with negative
wrap-around: index -1 of the Blk "abc" selects byte 99 and both operand
orders push Int 99. -/
theorem c3_blk_eq_pushes_int_witness :
    index [97, 98, 99] (-1 : Int) = some 99 ∧
    (lteqgt .eq ⟨[] ++ [.blk [97, 98, 99], .int (-1)], [], [], 5, []⟩ =
        .ok ((), ⟨[] ++ [.int 99], [], [], 5, []⟩) ∧
      lteqgt .eq ⟨[] ++ [.int (-1), .blk [97, 98, 99]], [], [], 5, []⟩ =
        .ok ((), ⟨[] ++ [.int 99], [], [], 5, []⟩)) :=
  ⟨rfl, c3_blk_eq_pushes_int [] [] 5 [] [97, 98, 99] (-1) 99 rfl⟩

/-!
Claim C2.  The base digits of an Int are the digits of its absolute
value, so the round trip through `base` recovers the absolute value, not
the integer itself: the claim fails on negative integers.
-/

theorem digitsLoop_spec : ∀ (f : Nat) (b i : Int), 1 < b → 0 ≤ i → i < (f : Int) →
    ∃ ds, digitsLoop f b i = .ok ds ∧ horner b ds = i := by
  intro f
  induction f with
  | zero =>
    intro b i _ hi hf
    exfalso
    simp only [Nat.cast_zero] at hf
    omega
  | succ f ih =>
    intro b i hb hi hf
    by_cases h0 : i = 0
    · subst h0
      exact ⟨[], by simp [digitsLoop], by simp [horner]⟩
    · have hbne : b ≠ 0 := by omega
      have hfd : i.fdiv b = i / b := Int.fdiv_eq_ediv i (by omega)
      have hfm : i.fmod b = i % b := Int.fmod_eq_emod i (by omega)
      have key : b * (i / b) + i % b = i := Int.ediv_add_emod i b
      have hr0 : 0 ≤ i % b := Int.emod_nonneg i hbne
      have hq0 : 0 ≤ i / b := Int.ediv_nonneg hi (by omega)
      have h2q : 2 * (i / b) ≤ b * (i / b) :=
        mul_le_mul_of_nonneg_right (by omega) hq0
      have hpos : 0 < i := lt_of_le_of_ne hi (Ne.symm h0)
      have hqlt : i / b < i := by linarith
      have hflt : i / b < (f : Int) := by
        have : i < (f : Int) + 1 := by exact_mod_cast hf
        linarith
      obtain ⟨ds, hds, hh⟩ := ih b (i.fdiv b) hb (by rw [hfd]; exact hq0) (by rw [hfd]; exact hflt)
      refine ⟨ds ++ [i.fmod b], ?_, ?_⟩
      · simp only [digitsLoop]
        simp [h0, hbne, hds]
      · rw [horner, List.foldl_append]
        show (horner b ds) * b + i.fmod b = i
        rw [hh, hfd, hfm, mul_comm]
        exact key

theorem hornerE_map (b : Int) : ∀ (ds : List Int) (acc : Int),
    hornerE b (ds.map (fun d => Gval.int d)) acc = .ok (ds.foldl (fun t d => t * b + d) acc)
  | [], _ => rfl
  | d :: ds, acc => by
    show hornerE b (ds.map (fun d => Gval.int d)) (acc * b + d) = _
    rw [hornerE_map b ds (acc * b + d)]
    rfl

/-- Counterexample to C2 as stated: for n = -1, b = 2 the digits are
those of the absolute value, so reassembling them yields Int 1, not
Int -1. -/
theorem c2_base_roundtrip_counterexample :
    baseOp 6 ⟨[.int (-1), .int 2], [], [], 1, []⟩ =
      .ok ((), ⟨[.arr [.int 1]], [], [], 1, []⟩) ∧
    baseOp 6 ⟨[.arr [.int 1], .int 2], [], [], 1, []⟩ =
      .ok ((), ⟨[.int 1], [], [], 1, []⟩) ∧
    Gval.int 1 ≠ Gval.int (-1) := ⟨rfl, rfl, by decide⟩

/-- C2 amended: for every Int n and Int b > 1 (and enough fuel for the
digit loop), converting n to base-b digits with `base` and reassembling
those digits with `base` yields the absolute value of n; the round trip
is the identity exactly on non-negative n. -/
theorem c2_base_roundtrip_abs (n b : Int) (st : List Gval)
    (vars : List (List Nat × Gval)) (rng : Nat) (out : List Nat) (f : Nat)
    (hb : 1 < b) (hf : n.natAbs < f) :
    ∃ ds : List Int,
      baseOp f ⟨st ++ [.int n, .int b], vars, [], rng, out⟩ =
        .ok ((), ⟨st ++ [.arr (ds.map (fun d => Gval.int d))], vars, [], rng, out⟩) ∧
      baseOp f ⟨st ++ [.arr (ds.map (fun d => Gval.int d)), .int b], vars, [], rng, out⟩ =
        .ok ((), ⟨st ++ [.int (n.natAbs : Int)], vars, [], rng, out⟩) ∧
      (0 ≤ n → (n.natAbs : Int) = n) := by
  obtain ⟨ds, hds, hh⟩ := digitsLoop_spec f b (n.natAbs : Int) hb (by positivity)
    (by exact_mod_cast hf)
  refine ⟨ds, ?_, ?_, fun hn => Int.natAbs_of_nonneg hn⟩
  · simp only [baseOp]
    rw [show st ++ [Gval.int n, Gval.int b] = (st ++ [Gval.int n]) ++ [Gval.int b] from by simp]
    rw [bind_ok (popM_nil_marks (st ++ [Gval.int n]) (Gval.int b) vars rng out)]
    rw [bind_ok (liftE_ok (show unwrapInt (Gval.int b) = .ok b from rfl) _)]
    rw [bind_ok (popM_nil_marks st (Gval.int n) vars rng out)]
    show (liftE (digitsLoop f b (n.natAbs : Int)) >>= fun ds2 =>
        pushM (Gval.arr (ds2.map (fun d => Gval.int d)))) ⟨st, vars, [], rng, out⟩ = _
    rw [bind_ok (liftE_ok hds _)]
    rw [pushM_apply]
  · simp only [baseOp]
    rw [show st ++ [Gval.arr (ds.map (fun d => Gval.int d)), Gval.int b] =
      (st ++ [Gval.arr (ds.map (fun d => Gval.int d))]) ++ [Gval.int b] from by simp]
    rw [bind_ok (popM_nil_marks (st ++ [Gval.arr (ds.map (fun d => Gval.int d))])
      (Gval.int b) vars rng out)]
    rw [bind_ok (liftE_ok (show unwrapInt (Gval.int b) = .ok b from rfl) _)]
    rw [bind_ok (popM_nil_marks st (Gval.arr (ds.map (fun d => Gval.int d))) vars rng out)]
    show (liftE (intoArr (Gval.arr (ds.map (fun d => Gval.int d)))) >>= fun elems =>
        liftE (hornerE b elems 0) >>= fun total =>
        pushM (Gval.int total)) ⟨st, vars, [], rng, out⟩ = _
    rw [bind_ok (liftE_ok (show intoArr (Gval.arr (ds.map (fun d => Gval.int d))) =
      .ok (ds.map (fun d => Gval.int d)) from rfl) _)]
    rw [bind_ok (liftE_ok (hornerE_map b ds 0) _)]
    rw [horner] at hh
    rw [hh, pushM_apply]

/-- Witness for the amended C2 at n = -5, b = 3, fuel 6: the digit list
exists, the round trip yields Int 5, and 5 is the absolute value. -/
theorem c2_base_roundtrip_abs_witness :
    (1 : Int) < 3 ∧ (-5 : Int).natAbs < 6 ∧
    (∃ ds : List Int,
      baseOp 6 ⟨[] ++ [.int (-5), .int 3], [], [], 2, []⟩ =
        .ok ((), ⟨[] ++ [.arr (ds.map (fun d => Gval.int d))], [], [], 2, []⟩) ∧
      baseOp 6 ⟨[] ++ [.arr (ds.map (fun d => Gval.int d)), .int 3], [], [], 2, []⟩ =
        .ok ((), ⟨[] ++ [.int ((-5 : Int).natAbs : Int)], [], [], 2, []⟩) ∧
      (0 ≤ (-5 : Int) → (((-5 : Int).natAbs : Int)) = -5)) :=
  ⟨by norm_num, by norm_num,
    c2_base_roundtrip_abs (-5) 3 [] [] 2 [] 6 (by norm_num) (by norm_num)⟩

/-!
Claim C4.  Splitting by a non-empty separator (keeping empty pieces) and
joining the pieces with the same separator is the identity, at the level
of the `/` and `*` operators.
-/

/-- Interleaving of pieces with a separator: the reference rendering of a
join for the round-trip proof. -/
def interCat (sep : List α) : List (List α) → List α
  | [] => []
  | p :: rest => p ++ rest.flatMap (fun q => sep ++ q)

theorem interCat_cons (sep p : List α) (ps : List (List α)) :
    interCat sep (p :: ps) = p ++ ps.flatMap (fun q => sep ++ q) := rfl

theorem flatMap_eq_interCat (sep : List α) (ps : List (List α)) (hne : ps ≠ []) :
    ps.flatMap (fun q => sep ++ q) = sep ++ interCat sep ps := by
  cases ps with
  | nil => exact absurd rfl hne
  | cons q qs => simp [interCat_cons, List.append_assoc]

theorem splitGo_interCat [DecidableEq α] (sep : List α) (hs : sep ≠ []) :
    ∀ (fuel : Nat) (rem cur : List α), rem.length < fuel →
      ∃ ps, splitGo sep false fuel rem cur = some ps ∧ ps ≠ [] ∧
        interCat sep ps = cur ++ rem := by
  intro fuel
  induction fuel with
  | zero => intro rem cur h; omega
  | succ f ih =>
    intro rem cur h
    cases rem with
    | nil =>
      refine ⟨[cur], by simp [splitGo], by simp, by simp [interCat]⟩
    | cons x xs =>
      cases hp : sep.isPrefixOf (x :: xs) with
      | true =>
        obtain ⟨t, ht⟩ := List.isPrefixOf_iff_prefix.mp hp
        have hdrop : (x :: xs).drop sep.length = t := by
          rw [← ht, List.drop_left]
        have hsl : 1 ≤ sep.length := by
          cases sep with
          | nil => exact absurd rfl hs
          | cons y ys => simp
        have hlen : t.length < f := by
          have hlt := congrArg List.length ht
          simp only [List.length_append, List.length_cons] at hlt h
          omega
        obtain ⟨ps, hps, hne, hic⟩ := ih t [] hlen
        refine ⟨cur :: ps, ?_, by simp, ?_⟩
        · simp only [splitGo, hp, if_true, hdrop, hps]
          simp
        · rw [interCat_cons, flatMap_eq_interCat sep ps hne, hic]
          simp only [List.nil_append]
          rw [ht]
      | false =>
        have hlen : xs.length < f := by
          simp only [List.length_cons] at h
          omega
        obtain ⟨ps, hps, hne, hic⟩ := ih xs (cur ++ [x]) hlen
        refine ⟨ps, ?_, hne, ?_⟩
        · simp only [splitGo, hp]
          exact hps
        · rw [hic]
          simp

theorem split_interCat [DecidableEq α] (a sep : List α) (hs : sep ≠ []) :
    ∃ ps, split a sep false = some ps ∧ ps ≠ [] ∧ interCat sep ps = a := by
  obtain ⟨ps, h1, h2, h3⟩ := splitGo_interCat sep hs (a.length + 1) a [] (by omega)
  exact ⟨ps, h1, h2, by simpa using h3⟩

theorem joinV_str_fold (sep : List Nat) : ∀ (qs : List (List Nat)) (acc : List Nat),
    (qs.map (fun p => Gval.str p)).foldl (fun r i => plusV (plusV r (Gval.str sep)) i)
      (Gval.str acc) = Gval.str (acc ++ qs.flatMap (fun q => sep ++ q))
  | [], acc => by simp
  | q :: qs, acc => by
    show (qs.map (fun p => Gval.str p)).foldl _
      (plusV (plusV (Gval.str acc) (Gval.str sep)) (Gval.str q)) = _
    rw [show plusV (plusV (Gval.str acc) (Gval.str sep)) (Gval.str q) =
      Gval.str ((acc ++ sep) ++ q) from rfl]
    rw [joinV_str_fold sep qs ((acc ++ sep) ++ q)]
    simp [List.append_assoc]

theorem joinV_str (sep : List Nat) (ps : List (List Nat)) (hne : ps ≠ []) :
    joinV (ps.map (fun p => Gval.str p)) (Gval.str sep) = Gval.str (interCat sep ps) := by
  cases ps with
  | nil => exact absurd rfl hne
  | cons p qs =>
    show (qs.map (fun p => Gval.str p)).foldl _ (coerce (Gval.str p) (Gval.str sep)).left = _
    rw [show (coerce (Gval.str p) (Gval.str sep)).left = Gval.str p from rfl]
    rw [joinV_str_fold sep qs p, interCat_cons]

theorem joinV_arr_fold (sep : List Gval) : ∀ (qs : List (List Gval)) (acc : List Gval),
    (qs.map (fun p => Gval.arr p)).foldl (fun r i => plusV (plusV r (Gval.arr sep)) i)
      (Gval.arr acc) = Gval.arr (acc ++ qs.flatMap (fun q => sep ++ q))
  | [], acc => by simp
  | q :: qs, acc => by
    show (qs.map (fun p => Gval.arr p)).foldl _
      (plusV (plusV (Gval.arr acc) (Gval.arr sep)) (Gval.arr q)) = _
    rw [show plusV (plusV (Gval.arr acc) (Gval.arr sep)) (Gval.arr q) =
      Gval.arr ((acc ++ sep) ++ q) from rfl]
    rw [joinV_arr_fold sep qs ((acc ++ sep) ++ q)]
    simp [List.append_assoc]

theorem joinV_arr (sep : List Gval) (ps : List (List Gval)) (hne : ps ≠ []) :
    joinV (ps.map (fun p => Gval.arr p)) (Gval.arr sep) = Gval.arr (interCat sep ps) := by
  cases ps with
  | nil => exact absurd rfl hne
  | cons p qs =>
    show (qs.map (fun p => Gval.arr p)).foldl _ (coerce (Gval.arr p) (Gval.arr sep)).left = _
    rw [show (coerce (Gval.arr p) (Gval.arr sep)).left = Gval.arr p from rfl]
    rw [joinV_arr_fold sep qs p, interCat_cons]

/-- C4: for every sequence s and non-empty separator sep of the same
kind (Str with Str, Arr with Arr), splitting s by sep with `/` (which
keeps empty pieces) and then joining the resulting pieces with sep via
`*` yields s again, for every run callback, fuel and surrounding
state. -/
theorem c4_split_join_identity :
    (∀ (runF : List Nat → GsM Unit) (fuel : Nat) (st : List Gval)
       (vars : List (List Nat × Gval)) (rng : Nat) (out : List Nat)
       (s sep : List Nat), sep ≠ [] →
      ∃ ps : List (List Nat), slashOp runF fuel ⟨st ++ [.str s, .str sep], vars, [], rng, out⟩ =
          .ok ((), ⟨st ++ [.arr (ps.map (fun p => Gval.str p))], vars, [], rng, out⟩) ∧
        asteriskOp runF
            ⟨st ++ [.arr (ps.map (fun p => Gval.str p)), .str sep], vars, [], rng, out⟩ =
          .ok ((), ⟨st ++ [.str s], vars, [], rng, out⟩)) ∧
    (∀ (runF : List Nat → GsM Unit) (fuel : Nat) (st : List Gval)
       (vars : List (List Nat × Gval)) (rng : Nat) (out : List Nat)
       (s sep : List Gval), sep ≠ [] →
      ∃ ps : List (List Gval), slashOp runF fuel ⟨st ++ [.arr s, .arr sep], vars, [], rng, out⟩ =
          .ok ((), ⟨st ++ [.arr (ps.map (fun p => Gval.arr p))], vars, [], rng, out⟩) ∧
        asteriskOp runF
            ⟨st ++ [.arr (ps.map (fun p => Gval.arr p)), .arr sep], vars, [], rng, out⟩ =
          .ok ((), ⟨st ++ [.arr s], vars, [], rng, out⟩)) := by
  constructor
  · intro runF fuel st vars rng out s sep hsep
    obtain ⟨ps, h1, h2, h3⟩ := split_interCat s sep hsep
    refine ⟨ps, ?_, ?_⟩
    · simp only [slashOp]
      rw [show st ++ [Gval.str s, Gval.str sep] = (st ++ [Gval.str s]) ++ [Gval.str sep]
        from by simp]
      rw [bind_ok (popM_nil_marks (st ++ [Gval.str s]) (Gval.str sep) vars rng out)]
      rw [bind_ok (popM_nil_marks st (Gval.str s) vars rng out)]
      show (match split s sep false with
        | none => (timeoutE : GsM Unit)
        | some ps2 => pushM (Gval.arr (ps2.map (fun p => Gval.str p))))
          ⟨st, vars, [], rng, out⟩ = _
      rw [h1]
      rfl
    · simp only [asteriskOp]
      rw [show st ++ [Gval.arr (ps.map (fun p => Gval.str p)), Gval.str sep] =
        (st ++ [Gval.arr (ps.map (fun p => Gval.str p))]) ++ [Gval.str sep] from by simp]
      rw [bind_ok (popM_nil_marks (st ++ [Gval.arr (ps.map (fun p => Gval.str p))])
        (Gval.str sep) vars rng out)]
      rw [bind_ok (popM_nil_marks st (Gval.arr (ps.map (fun p => Gval.str p))) vars rng out)]
      show pushM (joinV (ps.map (fun p => Gval.str p)) (Gval.str sep))
        ⟨st, vars, [], rng, out⟩ = _
      rw [joinV_str sep ps h2, h3, pushM_apply]
  · intro runF fuel st vars rng out s sep hsep
    obtain ⟨ps, h1, h2, h3⟩ := split_interCat s sep hsep
    refine ⟨ps, ?_, ?_⟩
    · simp only [slashOp]
      rw [show st ++ [Gval.arr s, Gval.arr sep] = (st ++ [Gval.arr s]) ++ [Gval.arr sep]
        from by simp]
      rw [bind_ok (popM_nil_marks (st ++ [Gval.arr s]) (Gval.arr sep) vars rng out)]
      rw [bind_ok (popM_nil_marks st (Gval.arr s) vars rng out)]
      show (match split s sep false with
        | none => (timeoutE : GsM Unit)
        | some ps2 => pushM (Gval.arr (ps2.map (fun p => Gval.arr p))))
          ⟨st, vars, [], rng, out⟩ = _
      rw [h1]
      rfl
    · simp only [asteriskOp]
      rw [show st ++ [Gval.arr (ps.map (fun p => Gval.arr p)), Gval.arr sep] =
        (st ++ [Gval.arr (ps.map (fun p => Gval.arr p))]) ++ [Gval.arr sep] from by simp]
      rw [bind_ok (popM_nil_marks (st ++ [Gval.arr (ps.map (fun p => Gval.arr p))])
        (Gval.arr sep) vars rng out)]
      rw [bind_ok (popM_nil_marks st (Gval.arr (ps.map (fun p => Gval.arr p))) vars rng out)]
      show pushM (joinV (ps.map (fun p => Gval.arr p)) (Gval.arr sep))
        ⟨st, vars, [], rng, out⟩ = _
      rw [joinV_arr sep ps h2, h3, pushM_apply]

/-- Witness for C4 at concrete inputs: the Str "a,b" split and joined by
"," and the Arr [0 1] split and joined by [1]. -/
theorem c4_split_join_identity_witness :
    (([44] : List Nat) ≠ [] ∧
      ∃ ps : List (List Nat),
        slashOp (runCode 0) 0 ⟨[] ++ [.str [97, 44, 98], .str [44]], [], [], 3, []⟩ =
          .ok ((), ⟨[] ++ [.arr (ps.map (fun p => Gval.str p))], [], [], 3, []⟩) ∧
        asteriskOp (runCode 0)
            ⟨[] ++ [.arr (ps.map (fun p => Gval.str p)), .str [44]], [], [], 3, []⟩ =
          .ok ((), ⟨[] ++ [.str [97, 44, 98]], [], [], 3, []⟩)) ∧
    (([Gval.int 1] : List Gval) ≠ [] ∧
      ∃ ps : List (List Gval), slashOp (runCode 0) 0
            ⟨[] ++ [.arr [.int 0, .int 1], .arr [.int 1]], [], [], 3, []⟩ =
          .ok ((), ⟨[] ++ [.arr (ps.map (fun p => Gval.arr p))], [], [], 3, []⟩) ∧
        asteriskOp (runCode 0)
            ⟨[] ++ [.arr (ps.map (fun p => Gval.arr p)), .arr [.int 1]], [], [], 3, []⟩ =
          .ok ((), ⟨[] ++ [.arr [.int 0, .int 1]], [], [], 3, []⟩)) :=
  ⟨⟨by simp, c4_split_join_identity.1 (runCode 0) 0 [] [] 3 [] [97, 44, 98] [44] (by simp)⟩,
    ⟨by simp, c4_split_join_identity.2 (runCode 0) 0 [] [] 3 []
      [.int 0, .int 1] [.int 1] (by simp)⟩⟩

theorem setS_apply (s2 s : GsState) : setS s2 s = .ok ((), s2) := rfl

/-- C7: in the driver loop, a `:` symbol followed by any token t binds
t's lexeme to the current top of the stack and changes nothing else: the
resulting state keeps the stack (top included), marks, PRNG state and
output, the new variable map answers t's lexeme with the old top, and
every other name still looks up as before. -/
theorem c7_colon_binds_top (runF : List Nat → GsM Unit) (fuel : Nat) (t : Gtoken)
    (s : GsState) (st : List Gval) (v : Gval) (h : s.stack = st ++ [v]) :
    runTokens runF fuel [.symbol [58], t] s =
      .ok ((), { s with vars := (lexeme t, v) :: s.vars }) ∧
    lookupVar ((lexeme t, v) :: s.vars) (lexeme t) = some v ∧
    (∀ k, k ≠ lexeme t → lookupVar ((lexeme t, v) :: s.vars) k = lookupVar s.vars k) := by
  obtain ⟨stack, vars, lb, rng, out⟩ := s
  simp only at h
  subst h
  refine ⟨?_, ?_, ?_⟩
  · simp only [runTokens, reduceIte]
    rw [bind_ok (topM_concat st v vars lb rng out)]
    rw [bind_ok (getS_apply _)]
    rw [bind_ok (setS_apply _ _)]
    rfl
  · simp [lookupVar]
  · intro k hk
    simp [lookupVar, Ne.symm hk]

/-- Witness for C7: binding the name x (byte 120) to the top Int 9
leaves the stack alone and adds the binding in front of the map. -/
theorem c7_colon_binds_top_witness :
    (⟨[.int 9], [], [], 1, []⟩ : GsState).stack = [] ++ [.int 9] ∧
    (runTokens (runCode 0) 0 [.symbol [58], .symbol [120]] ⟨[.int 9], [], [], 1, []⟩ =
        .ok ((), ⟨[.int 9], [([120], .int 9)], [], 1, []⟩) ∧
      lookupVar [([120], .int 9)] [120] = some (.int 9) ∧
      (∀ k, k ≠ [120] → lookupVar [([120], Gval.int 9)] k = lookupVar [] k)) :=
  ⟨rfl, c7_colon_binds_top (runCode 0) 0 (.symbol [120])
    ⟨[.int 9], [], [], 1, []⟩ [] (.int 9) rfl⟩

/-- The single-byte and keyword lexemes that Gs::run_token dispatches to
a primitive: the symbolic operators, `n` and `p` (the other keywords are
longer than one byte). -/
def golfSymbols : List Nat :=
  [126, 96, 33, 64, 36, 43, 45, 42, 47, 37, 124, 38, 94, 91, 93, 92, 59,
   60, 61, 62, 44, 46, 63, 40, 41, 110, 112]

/-- C8: a single-byte symbol token whose lexeme is not a bound variable
and is not one of the dispatched primitive bytes (this includes every
whitespace byte) leaves the entire evaluator state unchanged. -/
theorem c8_unknown_symbol_noop (runF : List Nat → GsM Unit) (fuel : Nat) (b : Nat)
    (s : GsState) (hvar : lookupVar s.vars [b] = none) (hb : b ∉ golfSymbols) :
    runToken runF fuel (.symbol [b]) s = .ok ((), s) := by
  simp only [golfSymbols, List.mem_cons, List.not_mem_nil, or_false, not_or] at hb
  obtain ⟨h1, h2, h3, h4, h5, h6, h7, h8, h9, h10, h11, h12, h13, h14, h15, h16, h17,
    h18, h19, h20, h21, h22, h23, h24, h25, h26, h27⟩ := hb
  simp only [runToken, lexeme]
  rw [bind_ok (getS_apply s)]
  rw [hvar]
  show symbolDispatch runF fuel [b] s = .ok ((), s)
  simp only [symbolDispatch, List.cons.injEq, and_true, and_false, if_false]
  simp [h1, h2, h3, h4, h5, h6, h7, h8, h9, h10, h11, h12, h13, h14, h15, h16, h17,
    h18, h19, h20, h21, h22, h23, h24, h25, h26, h27]
  rfl

/-- Witness for C8: the space byte is not dispatched, so it is a no-op
on a sample state. -/
theorem c8_unknown_symbol_noop_witness :
    lookupVar ([] : List (List Nat × Gval)) [32] = none ∧ 32 ∉ golfSymbols ∧
    runToken (runCode 0) 5 (.symbol [32]) ⟨[.int 9], [], [], 1, []⟩ =
      .ok ((), ⟨[.int 9], [], [], 1, []⟩) :=
  ⟨rfl, by decide,
    c8_unknown_symbol_noop (runCode 0) 5 32 ⟨[.int 9], [], [], 1, []⟩ rfl (by decide)⟩

/-!
Claim C5.  The program "hello"(block: 1+)(percent) maps the increment
block over the string bytes and flattens the results back into the Str
"ifmmp".  The run is stepped token by token.
-/

/-- Source bytes of the program: a double-quoted hello, a block with the
body 1+, and the percent symbol. -/
def helloProg : List Nat := [34, 104, 101, 108, 108, 111, 34, 123, 49, 43, 125, 37]

theorem hello_parse : parseCode (helloProg.length + 1) helloProg =
    some ([.doubleQuoted [34, 104, 101, 108, 108, 111, 34],
      .block [.intLiteral [49], .symbol [43]] [49, 43], .symbol [37]], []) := rfl

theorem parse_inc : parseCode ([49, 43].length + 1) [49, 43] =
    some ([.intLiteral [49], .symbol [43]], []) := rfl

theorem run_inc_tok1 (c : Int) :
    runToken (runCode 2) 2 (.intLiteral [49]) ⟨[Gval.int c], [], [], 123456789, []⟩ =
      .ok ((), ⟨[Gval.int c] ++ [Gval.int 1], [], [], 123456789, []⟩) := by
  simp only [runToken, lexeme]
  rw [bind_ok (getS_apply _)]
  show (liftE (intLitVal [49]) >>= fun n => pushM (Gval.int n))
    ⟨[Gval.int c], [], [], 123456789, []⟩ = _
  rw [bind_ok (liftE_ok (show intLitVal [49] = .ok 1 from rfl) _)]
  rw [pushM_apply]

theorem run_inc_tok2 (c : Int) :
    runToken (runCode 2) 2 (.symbol [43])
      ⟨[Gval.int c] ++ [Gval.int 1], [], [], 123456789, []⟩ =
      .ok ((), ⟨[] ++ [Gval.int (c + 1)], [], [], 123456789, []⟩) := by
  simp only [runToken, lexeme]
  rw [bind_ok (getS_apply _)]
  show plusOp ⟨[Gval.int c] ++ [Gval.int 1], [], [], 123456789, []⟩ = _
  simp only [plusOp]
  rw [bind_ok (popM_nil_marks [Gval.int c] (Gval.int 1) [] 123456789 [])]
  rw [show ([Gval.int c] : List Gval) = [] ++ [Gval.int c] from rfl]
  rw [bind_ok (popM_nil_marks [] (Gval.int c) [] 123456789 [])]
  show pushM (plusV (Gval.int c) (Gval.int 1)) ⟨[], [], [], 123456789, []⟩ = _
  rw [show plusV (Gval.int c) (Gval.int 1) = Gval.int (c + 1) from rfl]
  rw [pushM_apply]

theorem run_inc (c : Int) :
    runCode 3 [49, 43] ⟨[] ++ [Gval.int c], [], [], 123456789, []⟩ =
      .ok ((), ⟨[] ++ [Gval.int (c + 1)], [], [], 123456789, []⟩) := by
  show runCode (2 + 1) [49, 43] ⟨[Gval.int c], [], [], 123456789, []⟩ = _
  simp only [runCode]
  rw [parse_inc]
  show (runToken (runCode 2) 2 (.intLiteral [49]) >>= fun _ =>
      runTokens (runCode 2) 2 [.symbol [43]])
    ⟨[Gval.int c], [], [], 123456789, []⟩ = _
  rw [bind_ok (run_inc_tok1 c)]
  show (runToken (runCode 2) 2 (.symbol [43]) >>= fun _ =>
      runTokens (runCode 2) 2 [])
    ⟨[Gval.int c] ++ [Gval.int 1], [], [], 123456789, []⟩ = _
  rw [bind_ok (run_inc_tok2 c)]
  show (Pure.pure () : GsM Unit) ⟨[] ++ [Gval.int (c + 1)], [], [], 123456789, []⟩ = _
  rw [pure_apply]

/-- One iteration of gs_map when the block turns the pushed value v into
exactly one value v2 above the remembered stack length. -/
theorem gsMap_step {run : List Nat → GsM Unit} {code : List Nat} {acc : List Gval}
    {v : Gval} {vs : List Gval} {st : List Gval} {vars : List (List Nat × Gval)}
    {lb : List Nat} {rng : Nat} {out : List Nat} {v2 : Gval} {lb2 : List Nat}
    {rng2 : Nat} {out2 : List Nat}
    (h : run code ⟨st ++ [v], vars, lb, rng, out⟩ =
      .ok ((), ⟨st ++ [v2], vars, lb2, rng2, out2⟩)) :
    gsMapGo run code acc (v :: vs) ⟨st, vars, lb, rng, out⟩ =
      gsMapGo run code (acc ++ [v2]) vs ⟨st, vars, lb2, rng2, out2⟩ := by
  simp only [gsMapGo]
  rw [bind_ok (getS_apply _)]
  show (pushM v >>= fun _ => run code >>= fun _ => getS >>= fun st2 =>
      if (⟨st, vars, lb, rng, out⟩ : GsState).stack.length ≤ st2.stack.length then
        setS { st2 with stack := st2.stack.take (⟨st, vars, lb, rng, out⟩ : GsState).stack.length } >>= fun _ =>
        gsMapGo run code (acc ++ st2.stack.drop (⟨st, vars, lb, rng, out⟩ : GsState).stack.length) vs
      else fatalE) ⟨st, vars, lb, rng, out⟩ = _
  rw [bind_ok (pushM_apply v st vars lb rng out)]
  rw [bind_ok h]
  rw [bind_ok (getS_apply _)]
  show (if st.length ≤ (st ++ [v2]).length then
      setS ⟨(st ++ [v2]).take st.length, vars, lb2, rng2, out2⟩ >>= fun _ =>
      gsMapGo run code (acc ++ (st ++ [v2]).drop st.length) vs
    else fatalE) ⟨st ++ [v2], vars, lb2, rng2, out2⟩ = _
  rw [if_pos (by simp : st.length ≤ (st ++ [v2]).length)]
  rw [bind_ok (setS_apply _ _)]
  rw [List.take_left, List.drop_left]

theorem hello_map_run :
    gsMapGo (runCode 3) [49, 43] []
      [Gval.int 104, Gval.int 101, Gval.int 108, Gval.int 108, Gval.int 111]
      ⟨[], [], [], 123456789, []⟩ =
    .ok ([Gval.int 105, Gval.int 102, Gval.int 109, Gval.int 109, Gval.int 112],
      ⟨[], [], [], 123456789, []⟩) := by
  rw [gsMap_step (run_inc 104), gsMap_step (run_inc 101), gsMap_step (run_inc 108),
    gsMap_step (run_inc 108), gsMap_step (run_inc 111)]
  simp only [gsMapGo]
  rw [pure_apply]
  norm_num

theorem hello_percent :
    percentOp (runCode 3)
      ⟨[.str [104, 101, 108, 108, 111], .blk [49, 43]], [], [], 123456789, []⟩ =
      .ok ((), ⟨[.str [105, 102, 109, 109, 112]], [], [], 123456789, []⟩) := by
  simp only [percentOp]
  rw [show ([Gval.str [104, 101, 108, 108, 111], Gval.blk [49, 43]] : List Gval) =
    [Gval.str [104, 101, 108, 108, 111]] ++ [Gval.blk [49, 43]] from rfl]
  rw [bind_ok (popM_nil_marks [Gval.str [104, 101, 108, 108, 111]]
    (Gval.blk [49, 43]) [] 123456789 [])]
  rw [show ([Gval.str [104, 101, 108, 108, 111]] : List Gval) =
    [] ++ [Gval.str [104, 101, 108, 108, 111]] from rfl]
  rw [bind_ok (popM_nil_marks [] (Gval.str [104, 101, 108, 108, 111]) [] 123456789 [])]
  show (gsMapGo (runCode 3) [49, 43] []
      ([104, 101, 108, 108, 111].map (fun x : Nat => Gval.int x)) >>= fun r =>
    pushM (Gval.str (flattenL r))) ⟨[], [], [], 123456789, []⟩ = _
  rw [show ([104, 101, 108, 108, 111].map (fun x : Nat => Gval.int x)) =
    [Gval.int 104, Gval.int 101, Gval.int 108, Gval.int 108, Gval.int 111] from rfl]
  rw [bind_ok hello_map_run]
  show pushM (Gval.str (flattenL
    [Gval.int 105, Gval.int 102, Gval.int 109, Gval.int 109, Gval.int 112]))
    ⟨[], [], [], 123456789, []⟩ = _
  rw [pushM_apply]
  rfl

theorem hello_tok1 :
    runToken (runCode 3) 3 (.doubleQuoted [34, 104, 101, 108, 108, 111, 34])
      ⟨[], [], [], 123456789, []⟩ =
      .ok ((), ⟨[.str [104, 101, 108, 108, 111]], [], [], 123456789, []⟩) := by
  simp only [runToken, lexeme]
  rw [bind_ok (getS_apply _)]
  show pushM (Gval.str (unescape [34, 104, 101, 108, 108, 111, 34] false))
    ⟨[], [], [], 123456789, []⟩ = _
  rw [pushM_apply]
  rfl

theorem hello_tok2 :
    runToken (runCode 3) 3 (.block [.intLiteral [49], .symbol [43]] [49, 43])
      ⟨[.str [104, 101, 108, 108, 111]], [], [], 123456789, []⟩ =
      .ok ((), ⟨[.str [104, 101, 108, 108, 111], .blk [49, 43]], [], [], 123456789, []⟩) := by
  simp only [runToken, lexeme]
  rw [bind_ok (getS_apply _)]
  show pushM (Gval.blk [49, 43])
    ⟨[.str [104, 101, 108, 108, 111]], [], [], 123456789, []⟩ = _
  rw [pushM_apply]
  rfl

theorem hello_tok3 :
    runToken (runCode 3) 3 (.symbol [37])
      ⟨[.str [104, 101, 108, 108, 111], .blk [49, 43]], [], [], 123456789, []⟩ =
      .ok ((), ⟨[.str [105, 102, 109, 109, 112]], [], [], 123456789, []⟩) := by
  simp only [runToken, lexeme]
  rw [bind_ok (getS_apply _)]
  show percentOp (runCode 3)
    ⟨[.str [104, 101, 108, 108, 111], .blk [49, 43]], [], [], 123456789, []⟩ = _
  exact hello_percent

/-- C5: running the program "hello" (block 1+) percent on an empty
initial stack leaves exactly the Str "ifmmp": `%` maps the block over
the string's bytes pushed as Ints, collects what each iteration leaves
above the per-iteration low-water mark, and flattens the collected Ints
back to bytes mod 256. -/
theorem c5_hello_map_flatten :
    runCode 4 helloProg ⟨[], [], [], 123456789, []⟩ =
      .ok ((), ⟨[.str [105, 102, 109, 109, 112]], [], [], 123456789, []⟩) := by
  show runCode (3 + 1) helloProg ⟨[], [], [], 123456789, []⟩ = _
  simp only [runCode]
  rw [hello_parse]
  show (runToken (runCode 3) 3 (.doubleQuoted [34, 104, 101, 108, 108, 111, 34]) >>= fun _ =>
      runTokens (runCode 3) 3
        [.block [.intLiteral [49], .symbol [43]] [49, 43], .symbol [37]])
    ⟨[], [], [], 123456789, []⟩ = _
  rw [bind_ok hello_tok1]
  show (runToken (runCode 3) 3 (.block [.intLiteral [49], .symbol [43]] [49, 43]) >>= fun _ =>
      runTokens (runCode 3) 3 [.symbol [37]])
    ⟨[.str [104, 101, 108, 108, 111]], [], [], 123456789, []⟩ = _
  rw [bind_ok hello_tok2]
  show (runToken (runCode 3) 3 (.symbol [37]) >>= fun _ => runTokens (runCode 3) 3 [])
    ⟨[.str [104, 101, 108, 108, 111], .blk [49, 43]], [], [], 123456789, []⟩ = _
  rw [bind_ok hello_tok3]
  show (Pure.pure () : GsM Unit) ⟨[.str [105, 102, 109, 109, 112]], [], [], 123456789, []⟩ = _
  rw [pure_apply]
